import Mathlib

/-!
# be13_api: forensic paths and the feature recorder

A shallow embedding of `src/pos0.h` (the forensic path `pos0_t`) and of the methods
`write`, `write_buf`, `carve_data`, `extract_feature` and `unquote_string` of
`src/feature_recorder.cpp`, of `split` and `ends_with` of `src/utils.cpp`, with models of
the sanitizer `validateOrEscapeUTF8`, of `check_previously_processed` and of the recursion
ceiling taken from the specification, followed by theorems about them.

Conventions of the embedding

* `std::string` is a `List Char`; every `Char` stands for one byte, and the
  order on `Char` (by code) is the order `std::char_traits<char>` uses.
* `uint64_t` and `size_t` values are `Nat`s kept below `2^64` by an explicit
  `% 2^64` at every arithmetic operation; `unsigned int` is a `Nat` reduced
  `% 2^32`; `int64_t` is an `Int`.
* `assert(0)` is the outcome `abort`; output to `std::cerr` is counted.
-/

namespace BE13

/-- A `std::string`: the list of its bytes. -/
abbrev Str := List Char

/-- Number of values of a `uint64_t` / `size_t`. -/
def U64 : Nat := 18446744073709551616

/-- Number of values of an `unsigned int`. -/
def U32 : Nat := 4294967296

/-! ## Library operations used by the source -/

/-- The function `s.find(c)` of `std::string`: index of the first `c`, `none` for `npos`. -/
def find (s : Str) (c : Char) : Option Nat :=
  match s with
  | [] => none
  | x :: xs => if x = c then some 0 else (find xs c).map (· + 1)

/-- The function `s.substr(pos, n)`: at most `n` bytes from index `pos` on. -/
def substr (s : Str) (pos n : Nat) : Str := (s.drop pos).take n

/-- The function `s.substr(pos)`: everything from index `pos` on. -/
def substrFrom (s : Str) (pos : Nat) : Str := s.drop pos

/-- The comparison `a < b` of two `std::string`s: bytewise, a proper prefix is smaller. -/
def strLt : Str → Str → Bool
  | [], [] => false
  | [], _ :: _ => true
  | _ :: _, [] => false
  | a :: as, b :: bs => if a < b then true else if b < a then false else strLt as bs

/-- Output of an unsigned integer with `ss << n`: its decimal digits. -/
def u64_to_string (n : Nat) : Str := Nat.toDigits 10 n

/-- Output of an `int64_t` with `ss << x`: a minus sign for a negative value, then the digits. -/
def i64_to_string (x : Int) : Str :=
  if x < 0 then '-' :: Nat.toDigits 10 x.natAbs else Nat.toDigits 10 x.natAbs

/-- The sum of a `uint64_t` and an `int64_t`, as C++ computes `offset+s`: modulo `2^64`. -/
def add_u64_i64 (a : Nat) (s : Int) : Nat := (((a : Int) + s) % (U64 : Int)).toNat

/-- The sum of two `int64_t`, wrapped into the range of the type. -/
def add_i64 (a b : Int) : Int := (a + b + 9223372036854775808) % (U64 : Int) - 9223372036854775808

/-- The difference `p-1` of a `size_t`. -/
def size_pred (p : Nat) : Nat := (p + (U64 - 1)) % U64

/-- White space skipped by formatted stream input. -/
def isspace (c : Char) : Bool :=
  c = ' ' || c = '\t' || c = '\n' || c = '\r' || c.toNat = 11 || c.toNat = 12

/-- Value of a run of decimal digits. -/
def digitsValue (ds : Str) : Nat := ds.foldl (fun acc c => 10 * acc + (c.toNat - 48)) 0

/-- Formatted input `ss >> val` of an `int64_t` from a string, with `val` starting at 0
(`src/pos0.h`, `stoi64`): leading white space is skipped, an optional sign and the
decimal digits that follow are read; with no digit the value is 0, and a value out
of range is clamped to the nearest bound. -/
def stoi64 (str : Str) : Int :=
  let s := str.dropWhile isspace
  let neg : Bool := match s with
    | '-' :: _ => true
    | _ => false
  let body : Str := match s with
    | '-' :: t => t
    | '+' :: t => t
    | _ => s
  let ds := body.takeWhile Char.isDigit
  if ds = [] then 0
  else
    let n := digitsValue ds
    if neg then (if n > 9223372036854775808 then -9223372036854775808 else -(n : Int))
    else (if n > 9223372036854775807 then 9223372036854775807 else (n : Int))

/-- The test `isalpha(c)` in the C locale. -/
def isalpha (c : Char) : Bool := c.isAlpha

/-- The test `isdigit(c)`. -/
def isdigit (c : Char) : Bool := c.isDigit

/-! ## `pos0_t` (`src/pos0.h`) -/

/-- The forensic path: `path` holds the decoders, `offset` the location of `buf[0]`. -/
structure pos0_t where
  path : Str
  offset : Nat
  depth : Nat
deriving DecidableEq, Repr

namespace pos0_t

/-- The private `calc_depth`: `std::count_if` over `s` of `c == '-'`. -/
def calc_depth (s : Str) : Nat := s.countP (fun c => c = '-')

/-- The constructor `pos0_t()`: every member keeps its default. -/
def empty : pos0_t := { path := [], offset := 0, depth := 0 }

/-- The constructor `pos0_t(std::string s, uint64_t o)`: `depth` is an `unsigned int`
initialised from the `size_t` that `calc_depth` returns. -/
def make (s : Str) (o : Nat) : pos0_t := { path := s, offset := o, depth := calc_depth s % U32 }

/-- The copy constructor `pos0_t(const pos0_t &obj)`: its initialiser list names `path`
and `offset` only, so `depth` takes its default member initialiser `0`. -/
def copy (obj : pos0_t) : pos0_t := { path := obj.path, offset := obj.offset, depth := 0 }

/-- The member `str()`: the path, a dash when the path is not empty, and the offset. -/
def str (p : pos0_t) : Str :=
  (if p.path.length > 0 then p.path ++ ['-'] else []) ++ u64_to_string p.offset

/-- The member `isRecursive()`. -/
def isRecursive (p : pos0_t) : Bool := p.path.length > 0

/-- One round of the loop of `alphaPart` on the pair `(desc, inalpha)`. -/
def alphaStep (st : Str × Bool) (it : Char) : Str × Bool :=
  let st1 : Str × Bool :=
    if it = '-' then
      (if st.1.length > 0 ∧ st.1.getLast? ≠ some '/' then st.1 ++ ['/'] else st.1, false)
    else st
  if isalpha it || (st1.2 && isdigit it) then (st1.1 ++ [it], true) else st1

/-- The member `alphaPart()`: the non-numeric parts, with slashes between them. -/
def alphaPart (p : pos0_t) : Str := (p.path.foldl alphaStep ([], false)).1

/-- The member `imageOffset()`. -/
def imageOffset (p : pos0_t) : Nat :=
  if p.path.length > 0 then ((stoi64 p.path) % (U64 : Int)).toNat else p.offset

/-- The member `shift(int64_t s)`. `return *this` copies the object with the copy
constructor; `path.substr(0,p-1)` is computed with `p-1` in `size_t`. -/
def shift (self : pos0_t) (s : Int) : pos0_t :=
  if s = 0 then copy self
  else
    match find self.path '-' with
    | none => make [] (add_u64_i64 self.offset s)
    | some p =>
      let baseOffset := stoi64 (substr self.path 0 (size_pred p))
      make (i64_to_string (add_i64 baseOffset s) ++ substrFrom self.path p) self.offset

/-- The operator `pos + subdir`: the current offset becomes a prefix of the subdir. -/
def addSubdir (pos : pos0_t) (subdir : Str) : pos0_t :=
  make (pos.path ++ (if pos.path.length > 0 then ['-'] else []) ++ u64_to_string pos.offset
          ++ ['-'] ++ subdir) 0

/-- The operator `pos + delta` with an `int64_t` delta. -/
def addOffset (pos : pos0_t) (delta : Int) : pos0_t :=
  make pos.path (add_u64_i64 pos.offset delta)

/-- The operator `pos0 < pos1`. -/
def lt (pos0 pos1 : pos0_t) : Bool :=
  if pos0.path.length = 0 ∧ pos1.path.length = 0 then decide (pos0.offset < pos1.offset)
  else if pos0.path = pos1.path then decide (pos0.offset < pos1.offset)
  else strLt pos0.path pos1.path

/-- The operator `pos0 > pos1`. -/
def gt (pos0 pos1 : pos0_t) : Bool :=
  if pos0.path.length = 0 ∧ pos1.path.length = 0 then decide (pos0.offset > pos1.offset)
  else if pos0.path = pos1.path then decide (pos0.offset > pos1.offset)
  else strLt pos1.path pos0.path

/-- The operator `pos0 == pos1`: `depth` takes no part. -/
def eq (pos0 pos1 : pos0_t) : Bool :=
  decide (pos0.path = pos1.path) && decide (pos0.offset = pos1.offset)

/-- The operator `pos0 != pos1`. -/
def ne (pos0 pos1 : pos0_t) : Bool := !(eq pos0 pos1)

end pos0_t

/-! ## The feature recorder (`src/feature_recorder.cpp`, `src/feature_recorder_set.h`) -/

/-- The functions that `write` calls and whose code is outside `src/`: they are
parameters of the embedding. `validateOrEscapeUTF8 input escape_bad_utf8 escape_backslash
validate` and the global `validateOrEscapeUTF8_validate` come from `unicode_escape.h`,
`make_utf8` from `histogram.h`. -/
structure External where
  validateOrEscapeUTF8 : Str → Bool → Bool → Bool → Str
  validateOrEscapeUTF8_validate : Bool
  make_utf8 : Str → Str

/-- The per-recorder flags that `feature_recorder.cpp` reads from `flags`. -/
structure feature_recorder_flags where
  no_quote : Bool := false
  xml : Bool := false
  no_context : Bool := false
  no_stoplist : Bool := false
  no_features : Bool := false
deriving DecidableEq, Repr

/-- The members of a `feature_recorder` that `write`, `write_buf` and `carve_data` use;
`carved_files` counts the calls of `carve_data`, and `context_window` starts from the
`context_window_default` of the set. -/
structure feature_recorder where
  name : Str
  flags : feature_recorder_flags := {}
  context_window : Nat := 16
  carved_files : Nat := 0
deriving DecidableEq, Repr

/-- The struct `feature_recorder_set::flags_t`, with its default member initialisers. -/
structure flags_t where
  disabled : Bool := false
  pedantic : Bool := false
  no_alert : Bool := false
  only_alert : Bool := false
  create_stop_list_recorders : Bool := false
  debug : Bool := false
  record_files : Bool := true
  record_sql : Bool := false
deriving DecidableEq, Repr

/-- The members of `feature_recorder_set` that `write`, `carve_data` and
`check_previously_processed` use. The pointer `stop_list` is an optional
`check_feature_context` (of `word_and_context_list`, outside `src/`); the pointer
`stop_list_recorder` is an optional recorder of the same set; `seen_set` holds the digests
seen so far and `hasher` is the function `hasher.func`, from the bytes of a buffer to their
digest. -/
structure feature_recorder_set where
  flags : flags_t := {}
  stop_list : Option (Str → Str → Bool) := none
  stop_list_recorder : Option feature_recorder := none
  opt_max_context_size : Nat := 64
  opt_max_feature_size : Nat := 64
  outdir : Str := []
  seen_set : List Str := []
  hasher : Str → Str := fun buf => buf

/-- One call `write0(pos0, feature, context)`, the member through which `write` hands a
record to the store of a recorder (its body in `feature_recorder.cpp` is empty: what a
recorder stores is what its `write0` receives); `recorder` is the name of the recorder it
is called on. -/
structure Record where
  recorder : Str
  pos0 : pos0_t
  feature : Str
  context : Str
deriving DecidableEq, Repr

/-- How a call ends: with `assert(0)`, or by returning after the listed `write0` calls.
`cerr` counts the diagnostics sent to `std::cerr`. -/
inductive Outcome where
  | abort (cerr : Nat)
  | returned (written : List Record) (cerr : Nat)
deriving DecidableEq, Repr

/-- The flags `(escape_bad_utf8, escape_backslash)` that `quote_if_necessary` computes. -/
def escape_flags (flags : feature_recorder_flags) : Bool × Bool :=
  let e : Bool × Bool := (true, true)
  let e : Bool × Bool := if flags.no_quote then (false, false) else e
  let e : Bool × Bool := if flags.xml then (true, false) else e
  e

/-- The call of `validateOrEscapeUTF8` that `quote_if_necessary` makes on a string. -/
def sanitize (x : External) (self : feature_recorder) (s : Str) : Str :=
  x.validateOrEscapeUTF8 s (escape_flags self.flags).1 (escape_flags self.flags).2
    x.validateOrEscapeUTF8_validate

/-- The method `quote_if_necessary(feature, context)`: the new values of its two reference
arguments. `resize` to a smaller size keeps the first bytes. -/
def quote_if_necessary (x : External) (fs : feature_recorder_set) (self : feature_recorder)
    (feature context : Str) : Str × Str :=
  let feature := sanitize x self feature
  let feature :=
    if feature.length > fs.opt_max_feature_size then feature.take fs.opt_max_feature_size
    else feature
  let context :=
    if self.flags.no_context = false then
      let context := sanitize x self context
      if context.length > fs.opt_max_context_size then context.take fs.opt_max_context_size
      else context
    else context
  (feature, context)

/-- The pedantic loops of `write`: is one of the bytes a tab, a newline or a carriage return? -/
def has_tab_nl_cr (s : Str) : Bool := s.any (fun c => c = '\t' || c = '\n' || c = '\r')

/-- The stop-list test of `write`: `flags.no_stoplist==false && fs.stop_list &&
fs.stop_list_recorder && fs.stop_list->check_feature_context(*feature_utf8,context)`.
The result is the recorder the write is rerouted to, `none` when the test fails. -/
def stop_list_target (fs : feature_recorder_set) (self : feature_recorder)
    (feature_utf8 context : Str) : Option feature_recorder :=
  if self.flags.no_stoplist = false then
    match fs.stop_list, fs.stop_list_recorder with
    | some check, some stop_rec => if check feature_utf8 context then some stop_rec else none
    | _, _ => none
  else none

/-- The body of `feature_recorder::write`; `reroute` stands for the call
`fs.stop_list_recorder->write(...)`. -/
def write_body (x : External) (fs : feature_recorder_set)
    (reroute : feature_recorder → pos0_t → Str → Str → Option Outcome)
    (self : feature_recorder) (pos0 : pos0_t) (feature_ context_ : Str) : Option Outcome :=
  if fs.flags.disabled then some (Outcome.returned [] 0)
  else if fs.flags.pedantic ∧ feature_.length > fs.opt_max_feature_size then
    some (Outcome.abort 1)
  else if fs.flags.pedantic ∧ context_.length > fs.opt_max_context_size then
    some (Outcome.abort 1)
  else
    let feature := feature_
    let context := if self.flags.no_context then [] else context_
    let feature_utf8 := x.make_utf8 feature
    let q := quote_if_necessary x fs self feature context
    let feature := q.1
    let context := q.2
    if feature.length = 0 then
      (if fs.flags.pedantic then some (Outcome.abort 1) else some (Outcome.returned [] 1))
    else if fs.flags.pedantic ∧ (has_tab_nl_cr feature ∨ has_tab_nl_cr context) then
      some (Outcome.abort 0)
    else
      match stop_list_target fs self feature_utf8 context with
      | some stop_rec => reroute stop_rec pos0 feature context
      | none =>
        if self.flags.no_features = false then
          some (Outcome.returned [{ recorder := self.name, pos0 := pos0, feature := feature,
                                    context := context }] 0)
        else some (Outcome.returned [] 0)

/-- The method `feature_recorder::write(pos0, feature_, context_)` of the recorder `self` of
the set `fs`. The first argument bounds the depth of the nested calls
`fs.stop_list_recorder->write(...)`; `none` means that the bound was reached. -/
def write (x : External) (fs : feature_recorder_set) :
    Nat → feature_recorder → pos0_t → Str → Str → Option Outcome
  | 0 => write_body x fs (fun _ _ _ _ => none)
  | fuel + 1 => write_body x fs (write x fs fuel)

/-! ## `write_buf` and `carve_data` (`src/feature_recorder.cpp`) -/

/-- Modelled from the spec: the buffer type `sbuf_t` of `sbuf.h`, which is outside `src/`,
"a given read-only byte-range type with a byte-offset origin": the bytes `buf`, the path
`pos0` of `buf[0]`, and `pagesize`, the index at which the margin starts. -/
structure sbuf_t where
  pos0 : pos0_t
  buf : Str
  pagesize : Nat
deriving DecidableEq, Repr

/-- The member `bufsize`: the number of bytes of the buffer. -/
def sbuf_t.bufsize (sbuf : sbuf_t) : Nat := sbuf.buf.length

/-- Modelled from the spec: `sbuf.substr(pos, len)`, "the raw slice `[offset,
offset+length)`" of the buffer, which cannot reach beyond its last byte. -/
def sbuf_t.substr (sbuf : sbuf_t) (pos len : Nat) : Str := BE13.substr sbuf.buf pos len

/-- The conversion of an integer to `int64_t`. -/
def to_i64 (n : Int) : Int := (n + 9223372036854775808) % (U64 : Int) - 9223372036854775808

/-- The conversion of an integer to `int`. -/
def to_i32 (n : Int) : Int := (n + 2147483648) % (U32 : Int) - 2147483648

/-- What `write_buf` does before it reaches `this->write(...)`: it returns early (after
`cerr` diagnostics), or its `assert(p0<=p1)` fails, or it calls `write` with these
arguments. -/
inductive write_buf_step where
  | ignored (cerr : Nat)
  | assert_failed
  | call (pos0 : pos0_t) (feature context : Str)
deriving DecidableEq, Repr

/-- The method `write_buf(sbuf, pos, len)` up to its call of `write`. The sums `pos+len` and
`pos+len+context_window` are sums of `size_t`. -/
def write_buf_args (self : feature_recorder) (sbuf : sbuf_t) (pos len : Nat) : write_buf_step :=
  if pos ≥ sbuf.pagesize ∧ pos < sbuf.bufsize then write_buf_step.ignored 0
  else if pos ≥ sbuf.bufsize then write_buf_step.ignored 1
  else
    let len := if (pos + len) % U64 > sbuf.bufsize then sbuf.bufsize - pos else len
    let feature := sbuf.substr pos len
    if self.flags.no_context = false then
      let p0 := if self.context_window < pos then pos - self.context_window else 0
      let p1 := (pos + len + self.context_window) % U64
      let p1 := if p1 > sbuf.bufsize then sbuf.bufsize else p1
      if p0 ≤ p1 then
        write_buf_step.call (sbuf.pos0.addOffset (to_i64 pos)) feature (sbuf.substr p0 (p1 - p0))
      else write_buf_step.assert_failed
    else write_buf_step.call (sbuf.pos0.addOffset (to_i64 pos)) feature []

/-- The method `feature_recorder::write_buf(sbuf, pos, len)`. -/
def write_buf (x : External) (fs : feature_recorder_set) (fuel : Nat) (self : feature_recorder)
    (sbuf : sbuf_t) (pos len : Nat) : Option Outcome :=
  match write_buf_args self sbuf pos len with
  | write_buf_step.ignored cerr => some (Outcome.returned [] cerr)
  | write_buf_step.assert_failed => some (Outcome.abort 0)
  | write_buf_step.call pos0 feature context => write x fs fuel self pos0 feature context

/-- Output with `std::setw(w)` and `std::setfill(fill)`: the text is filled on the left up
to the width `w`. -/
def pad_left (w : Nat) (fill : Char) (s : Str) : Str := List.replicate (w - s.length) fill ++ s

/-- The text `seq.str()` of `carve_data` for the value `n` of `carved_files`:
`seq << std::setw(3) << std::setfill('0') << int(myfileNumber/1000)` with the `int64_t`
`myfileNumber`. -/
def carve_seq (n : Nat) : Str :=
  pad_left 3 '0' (i64_to_string (to_i32 (Int.tdiv (to_i64 (n : Int)) 1000)))

/-- What a call of `carve_data` leaves in the program: the name it returns and the
recorder with its new `carved_files`. -/
structure carve_result where
  fname : Str
  recorder : feature_recorder
deriving DecidableEq, Repr

/-- The method `feature_recorder::carve_data(sbuf, ext, mtime, offset, len)`; it reads
neither `mtime` nor `offset` nor `len`. The calls of `std::filesystem::create_directory`
and of the output stream act on the file system only, which is no part of the embedding:
the result is the name, computed before those calls, that the method returns when
`create_directory` does not throw, and the recorder with its new counter. -/
def carve_data (fs : feature_recorder_set) (self : feature_recorder) (sbuf : sbuf_t)
    (ext : Str) : carve_result :=
  let seq := carve_seq self.carved_files
  let scannerDir := fs.outdir ++ ['/'] ++ self.name
  let seqDir := scannerDir ++ ['/'] ++ seq
  let fname := seqDir ++ ['/'] ++ sbuf.pos0.str ++ ['.'] ++ ext
  { fname := fname, recorder := { self with carved_files := self.carved_files + 1 } }

/-- A run of `carve_data` calls on one recorder, one call for each `(sbuf, ext)` of the
list: the names returned, in order, and the recorder after the last call. -/
def carve_all (fs : feature_recorder_set) :
    feature_recorder → List (sbuf_t × Str) → List Str × feature_recorder
  | self, [] => ([], self)
  | self, (sbuf, ext) :: rest =>
    let r := carve_data fs self sbuf ext
    let rs := carve_all fs r.recorder rest
    (r.fname :: rs.1, rs.2)

/-- The directory part of a name that `carve_data` returns for the recorder `self`: the
text between `outdir/name/` and the next slash. -/
def shard_of (fs : feature_recorder_set) (self : feature_recorder) (fname : Str) : Str :=
  (fname.drop (fs.outdir.length + 1 + self.name.length + 1)).takeWhile (fun c => c ≠ '/')

/-- The size bounds of the set `fs` hold for the record `r`. -/
def Record.within (fs : feature_recorder_set) (r : Record) : Prop :=
  r.feature.length ≤ fs.opt_max_feature_size ∧ r.context.length ≤ fs.opt_max_context_size

/-! ## `extract_feature` and `unquote_string` (`src/feature_recorder.cpp`) -/

/-- The function `s.find(c, pos)` of `std::string`: index of the first `c` at or after
`pos`, `none` for `npos`. -/
def find_from (s : Str) (c : Char) (pos : Nat) : Option Nat :=
  (find (s.drop pos) c).map (· + pos)

/-- The static method `feature_recorder::extract_feature(line)`. -/
def extract_feature (line : Str) : Str :=
  match find line '\t' with
  | none => []
  | some tab1 =>
    let feature_start := tab1 + 1
    match find_from line '\t' feature_start with
    | some tab2 => substr line feature_start (tab2 - feature_start)
    | none => substrFrom line feature_start

/-- The static function `isodigit(c)`: `c>='0' && c<='7'`. -/
def isodigit (c : Char) : Bool := decide ('0' ≤ c) && decide (c ≤ '7')

/-- The test `isxdigit(c)`: a decimal digit or a letter from `a` to `f` in either case. -/
def isxdigit (c : Char) : Bool :=
  (decide ('0' ≤ c) && decide (c ≤ '9')) || (decide ('a' ≤ c) && decide (c ≤ 'f'))
    || (decide ('A' ≤ c) && decide (c ≤ 'F'))

/-- The static function `hexval(ch)`, a `switch` with the default 0. -/
def hexval (ch : Char) : Nat :=
  if ch = '0' then 0 else if ch = '1' then 1 else if ch = '2' then 2
  else if ch = '3' then 3 else if ch = '4' then 4 else if ch = '5' then 5
  else if ch = '6' then 6 else if ch = '7' then 7 else if ch = '8' then 8
  else if ch = '9' then 9
  else if ch = 'a' ∨ ch = 'A' then 10 else if ch = 'b' ∨ ch = 'B' then 11
  else if ch = 'c' ∨ ch = 'C' then 12 else if ch = 'd' ∨ ch = 'D' then 13
  else if ch = 'e' ∨ ch = 'E' then 14 else if ch = 'f' ∨ ch = 'F' then 15
  else 0

/-- The loop of `unquote_string` from an index `i` on, as a function of the bytes
`s[i], s[i+1], ...` that remain: `i+3<len` says that three more bytes follow `s[i]`; the
`uint8_t code` is the computed value modulo 256. -/
def unquote_loop : Str → Str
  | [] => []
  | [c] => [c]
  | [c, d1] => c :: unquote_loop [d1]
  | [c, d1, d2] => c :: unquote_loop [d1, d2]
  | c :: d1 :: d2 :: d3 :: rest =>
    if c = '\\' ∧ isodigit d1 = true ∧ isodigit d2 = true ∧ isodigit d3 = true then
      Char.ofNat (((d1.toNat - 48) * 64 + (d2.toNat - 48) * 8 + (d3.toNat - 48)) % 256)
        :: unquote_loop rest
    else if c = '\\' ∧ d1 = 'x' ∧ isxdigit d2 = true ∧ isxdigit d3 = true then
      Char.ofNat (((hexval d2 * 16) ||| hexval d3) % 256) :: unquote_loop rest
    else c :: unquote_loop (d1 :: d2 :: d3 :: rest)

/-- The static method `feature_recorder::unquote_string(s)`. -/
def unquote_string (s : Str) : Str :=
  if s.length < 4 then s else unquote_loop s

/-! ### The quoted strings of the claim on `unquote_string` -/

/-- A piece of a quoted string: a literal byte, a backslash with three octal digits, or a
backslash with `x` and two hex digits. -/
inductive quoted_piece where
  | literal (c : Char)
  | octal (d1 d2 d3 : Char)
  | hex (h1 h2 : Char)
deriving DecidableEq, Repr

/-- The pieces the claim speaks of: a literal is not a backslash, an octal escape has
three octal digits and a value of at most 0377, a hex escape has two hex digits. -/
def quoted_piece.valid : quoted_piece → Bool
  | literal c => decide (c ≠ '\\')
  | octal d1 d2 d3 =>
    decide ('0' ≤ d1) && decide (d1 ≤ '3') && decide ('0' ≤ d2) && decide (d2 ≤ '7')
      && decide ('0' ≤ d3) && decide (d3 ≤ '7')
  | hex h1 h2 => isxdigit h1 && isxdigit h2

/-- The text of a piece. -/
def quoted_piece.text : quoted_piece → Str
  | literal c => [c]
  | octal d1 d2 d3 => ['\\', d1, d2, d3]
  | hex h1 h2 => ['\\', 'x', h1, h2]

/-- The value of a hex digit. -/
def hex_digit_value (c : Char) : Nat :=
  if c.toNat ≤ 57 then c.toNat - 48 else if c.toNat ≤ 70 then c.toNat - 55 else c.toNat - 87

/-- The byte that a piece denotes. -/
def quoted_piece.byte : quoted_piece → Char
  | literal c => c
  | octal d1 d2 d3 => Char.ofNat ((d1.toNat - 48) * 64 + (d2.toNat - 48) * 8 + (d3.toNat - 48))
  | hex h1 h2 => Char.ofNat (hex_digit_value h1 * 16 + hex_digit_value h2)

/-- The octal escape of a byte: a backslash and the three octal digits of its value. -/
def octal_escape (b : Char) : Str :=
  ['\\', Char.ofNat (48 + b.toNat / 64), Char.ofNat (48 + b.toNat / 8 % 8),
   Char.ofNat (48 + b.toNat % 8)]

/-- The hex escape of a byte: a backslash, `x` and the two hex digits of its value. -/
def hex_escape (b : Char) : Str :=
  ['\\', 'x', Nat.digitChar (b.toNat / 16), Nat.digitChar (b.toNat % 16)]

/-- The text of a list of pieces, one after the other. -/
def quoted_text : List quoted_piece → Str
  | [] => []
  | p :: ps => p.text ++ quoted_text ps

/-- A byte string with every byte written as its octal escape. -/
def octal_quote : Str → Str
  | [] => []
  | b :: bs => octal_escape b ++ octal_quote bs

/-- A byte string with every byte written as its hex escape. -/
def hex_quote : Str → Str
  | [] => []
  | b :: bs => hex_escape b ++ hex_quote bs

/-! ## The sanitizer `validateOrEscapeUTF8` (`unicode_escape.h`, outside `src/`) -/

/-- Is the value of the byte between `lo` and `hi`? -/
def byte_in (c : Char) (lo hi : Nat) : Bool := decide (lo ≤ c.toNat) && decide (c.toNat ≤ hi)

/-- The "valid UTF-8" of the spec: the number of bytes of the well-formed UTF-8 sequence at
the head of the string, 0 when the string does not start with one (the byte ranges of
table 3-7 of the Unicode standard). -/
def utf8_sequence : Str → Nat
  | [] => 0
  | b0 :: rest =>
    if byte_in b0 0 127 then 1
    else if byte_in b0 194 223 && (rest.take 1).all (fun b => byte_in b 128 191)
        && decide (1 ≤ rest.length) then 2
    else if (byte_in b0 224 224 && (rest.take 1).all (fun b => byte_in b 160 191)
          || byte_in b0 225 236 && (rest.take 1).all (fun b => byte_in b 128 191)
          || byte_in b0 237 237 && (rest.take 1).all (fun b => byte_in b 128 159)
          || byte_in b0 238 239 && (rest.take 1).all (fun b => byte_in b 128 191))
        && ((rest.drop 1).take 1).all (fun b => byte_in b 128 191)
        && decide (2 ≤ rest.length) then 3
    else if (byte_in b0 240 240 && (rest.take 1).all (fun b => byte_in b 144 191)
          || byte_in b0 241 243 && (rest.take 1).all (fun b => byte_in b 128 191)
          || byte_in b0 244 244 && (rest.take 1).all (fun b => byte_in b 128 143))
        && ((rest.drop 1).take 2).all (fun b => byte_in b 128 191)
        && decide (3 ≤ rest.length) then 4
    else 0

/-- Is the string valid UTF-8, one well-formed sequence after the other? The first
argument counts the bytes still to pass of the sequence under way. -/
def utf8_valid_loop : Nat → Str → Bool
  | _, [] => true
  | skip + 1, _ :: rest => utf8_valid_loop skip rest
  | 0, c :: rest =>
    decide (utf8_sequence (c :: rest) ≠ 0) && utf8_valid_loop (utf8_sequence (c :: rest) - 1) rest

/-- Is the string valid UTF-8? -/
def utf8_valid (s : Str) : Bool := utf8_valid_loop 0 s

/-- Modelled from the spec: the loop of the sanitizer `validateOrEscapeUTF8` below, byte
after byte; the first argument counts the bytes still to copy of the well-formed sequence
under way. -/
def escape_loop (escape_bad_utf8 escape_backslash : Bool) : Nat → Str → Str
  | _, [] => []
  | skip + 1, c :: rest => c :: escape_loop escape_bad_utf8 escape_backslash skip rest
  | 0, c :: rest =>
    if c = '\\' ∧ escape_backslash = true then
      hex_escape c ++ escape_loop escape_bad_utf8 escape_backslash 0 rest
    else if c.toNat < 32 ∧ escape_bad_utf8 = true then
      hex_escape c ++ escape_loop escape_bad_utf8 escape_backslash 0 rest
    else if utf8_sequence (c :: rest) = 0 then
      (if escape_bad_utf8 then hex_escape c else [c])
        ++ escape_loop escape_bad_utf8 escape_backslash 0 rest
    else c :: escape_loop escape_bad_utf8 escape_backslash (utf8_sequence (c :: rest) - 1) rest

/-- Modelled from the spec: the sanitizer `validateOrEscapeUTF8(input, escape_bad_utf8,
escape_backslash, validate)`, declared in `unicode_escape.h` and defined outside `src/`.
The spec has it "replace or escape bytes that are not valid UTF-8, and escape backslashes,
according to the recorder's flags", in the three modes of `quote_if_necessary`, and has the
stored text "pre-sanitized to exclude raw tabs/newlines". Here a backslash is escaped when
`escape_backslash` is set; a byte that starts no well-formed UTF-8 sequence and a control
character (below 32) are escaped when `escape_bad_utf8` is set; every other byte is copied.
An escape is written as a backslash, `x` and two hex digits, the form that
`unquote_string` reads back. -/
def validateOrEscapeUTF8 (input : Str) (escape_bad_utf8 escape_backslash : Bool)
    (_validate : Bool) : Str :=
  escape_loop escape_bad_utf8 escape_backslash 0 input

/-- The external functions with the sanitizer above; `make_utf8` and the global
`validateOrEscapeUTF8_validate` stay parameters. -/
def sanitizingExternal (make_utf8 : Str → Str) (validate : Bool) : External :=
  { validateOrEscapeUTF8 := validateOrEscapeUTF8
    validateOrEscapeUTF8_validate := validate
    make_utf8 := make_utf8 }

/-! ## `valid_dosname` (`src/feature_recorder.cpp`) and `src/utils.cpp` -/

/-- The test of `valid_dosname` on the `uint8_t ch` of a byte: must the byte be replaced? -/
def dosname_replaced (c : Char) : Bool :=
  let ch := Char.ofNat (c.toNat % 256)
  decide (ch.toNat ≤ 32) || decide (ch.toNat ≥ 128)
    || decide (ch = '"') || decide (ch = '*') || decide (ch = '+') || decide (ch = ',')
    || decide (ch = '/') || decide (ch = ':') || decide (ch = ';') || decide (ch = '<')
    || decide (ch = '=') || decide (ch = '>') || decide (ch = '?') || decide (ch = '\\')
    || decide (ch = '[') || decide (ch = ']') || decide (ch = '|') || decide (ch = '$')

/-- The bytes named as invalid in a file name: at most 32, at least 128, or one of
`" * + , / : ; < = > ? \ [ ] | $`. -/
def dosname_invalid (c : Char) : Bool :=
  decide (c.toNat ≤ 32) || decide (c.toNat ≥ 128)
    || decide (c ∈ ['"', '*', '+', ',', '/', ':', ';', '<', '=', '>', '?', '\\', '[', ']',
        '|', '$'])

/-- The function `valid_dosname(in)`: byte after byte, `_` or the byte itself is pushed. -/
def valid_dosname : Str → Str
  | [] => []
  | c :: rest =>
    (if dosname_replaced c then '_' else Char.ofNat (c.toNat % 256)) :: valid_dosname rest

/-- The function `ends_with(buf, with)` for `std::string`. -/
def ends_with (buf w : Str) : Bool :=
  let buflen := buf.length
  let withlen := w.length
  decide (buflen > withlen) && decide (substr buf (buflen - withlen) withlen = w)

/-- The call `std::getline(ss, item, delim)` on the unread text `ss` of the stream: with
nothing left to read the call fails (`none`); otherwise the item is the text before the
first `delim`, or all of it when there is none, and the delimiter is consumed. -/
def getline (ss : Str) (delim : Char) : Option (Str × Str) :=
  if ss = [] then none
  else some (ss.takeWhile (fun c => c ≠ delim), (ss.dropWhile (fun c => c ≠ delim)).drop 1)

/-- The loop `while(std::getline(ss, item, delim)) elems.push_back(item)`; the first
argument bounds the number of rounds. -/
def split_loop (delim : Char) : Nat → Str → List Str
  | 0, _ => []
  | fuel + 1, ss =>
    match getline ss delim with
    | none => []
    | some (item, rest) => item :: split_loop delim fuel rest

/-- The function `split(s, delim)`: every round of the loop consumes at least one byte, so
`s.size() + 1` rounds are enough. -/
def split (s : Str) (delim : Char) : List Str := split_loop delim (s.length + 1) s

/-- The elements of a list joined with `delim` between them. -/
def join_with (delim : Char) : List Str → Str
  | [] => []
  | [x] => x
  | x :: y :: rest => x ++ delim :: join_with delim (y :: rest)

/-! ## `check_previously_processed` and the recursion ceiling -/

/-- Modelled from the spec: `feature_recorder_set::check_previously_processed(sbuf)`,
declared in `feature_recorder_set.h` and defined outside `src/`. It "computes the buffer's
content digest with the session's configured hash function and atomically
tests-and-inserts it into the seen-set; returns whether it was already present". The
result is the answer and the set after the call. -/
def check_previously_processed (fs : feature_recorder_set) (sbuf : sbuf_t) :
    Bool × feature_recorder_set :=
  let digest := fs.hasher sbuf.buf
  if digest ∈ fs.seen_set then (true, fs)
  else (false, { fs with seen_set := digest :: fs.seen_set })

/-- A run of `check_previously_processed` calls, one for each `(thread, sbuf)` of the list
in the order in which the atomic test-and-insert steps take place: the answers, in that
order, and the set after the last call. -/
def check_all : feature_recorder_set → List (Nat × sbuf_t) → List Bool × feature_recorder_set
  | fs, [] => ([], fs)
  | fs, (_, sbuf) :: rest =>
    let r := check_previously_processed fs sbuf
    let rs := check_all r.2 rest
    (r.1 :: rs.1, rs.2)

/-- The constant `feature_recorder::MAX_DEPTH_REACHED_ERROR_FEATURE`. -/
def MAX_DEPTH_REACHED_ERROR_FEATURE : Str := "process_extract: MAX DEPTH REACHED".toList

/-- The constant `feature_recorder::MAX_DEPTH_REACHED_ERROR_CONTEXT`. -/
def MAX_DEPTH_REACHED_ERROR_CONTEXT : Str := []

/-- The member `max_depth` of `scanner_set`, with its default. -/
structure scanner_set where
  max_depth : Nat := 7
deriving DecidableEq, Repr

/-- What `process_sbuf` does with one buffer: the plugins scan it at a depth, or the
submission is refused and the sentinel feature is recorded. -/
inductive scan_event where
  | scanned (sbuf : sbuf_t) (depth : Nat)
  | refused (sentinel : Record)
deriving DecidableEq, Repr

/-- Modelled from the spec: `scanner_set::process_sbuf`, declared in `scanner_set.h` and
defined outside `src/`, on a chain of buffers in which each buffer is derived by a plugin
from the one before it. "Once depth reaches the configured ceiling, recursive submission
is refused and a fixed sentinel feature is recorded instead of processing further";
below the ceiling the plugins scan the buffer and the derived buffer is submitted one level
deeper. `recorder` names the recorder that receives the sentinel. -/
def process_chain (ss : scanner_set) (recorder : Str) : Nat → List sbuf_t → List scan_event
  | _, [] => []
  | depth, sbuf :: derived =>
    if depth ≥ ss.max_depth then
      [scan_event.refused { recorder := recorder, pos0 := sbuf.pos0,
                            feature := MAX_DEPTH_REACHED_ERROR_FEATURE,
                            context := MAX_DEPTH_REACHED_ERROR_CONTEXT }]
    else scan_event.scanned sbuf depth :: process_chain ss recorder (depth + 1) derived

/-- Is the event a refusal? -/
def scan_event.is_refused : scan_event → Bool
  | scanned _ _ => false
  | refused _ => true

/-! ## Concrete instances used below -/

/-- A sanitizer that returns its input, and a `make_utf8` that returns its input: what the
external functions do on printable ASCII text without a backslash, the only text the
instances below pass to them. -/
def plainExternal : External :=
  { validateOrEscapeUTF8 := fun s _ _ _ => s
    validateOrEscapeUTF8_validate := false
    make_utf8 := fun s => s }

/-- A recorder named `email` with the default flags. -/
def emailRecorder : feature_recorder := { name := "email".toList }

/-- A disabled set in pedantic mode. -/
def disabledSet : feature_recorder_set := { flags := { disabled := true, pedantic := true } }

/-- A set whose `opt_max_feature_size` is 0. -/
def zeroSizeSet : feature_recorder_set := { opt_max_feature_size := 0 }

/-- A set with `opt_max_feature_size` 4 and `opt_max_context_size` 6. -/
def smallSet : feature_recorder_set := { opt_max_feature_size := 4, opt_max_context_size := 6 }

/-- A set in pedantic mode. -/
def pedanticSet : feature_recorder_set := { flags := { pedantic := true } }

/-- A disabled set in non-pedantic mode. -/
def disabledPlainSet : feature_recorder_set := { flags := { disabled := true } }

/-- A stop-list recorder that does not itself take part in stop-list filtering. -/
def stoppedRecorder : feature_recorder :=
  { name := "email_stopped".toList, flags := { no_stoplist := true } }

/-- A set with a stop list that matches every feature, and the stop-list recorder above. -/
def stopSet : feature_recorder_set :=
  { stop_list := some (fun _ _ => true), stop_list_recorder := some stoppedRecorder }

/-- The set `stopSet`, disabled. -/
def disabledStopSet : feature_recorder_set :=
  { stop_list := some (fun _ _ => true), stop_list_recorder := some stoppedRecorder,
    flags := { disabled := true } }

/-- The set `stopSet` with a stop-list recorder whose `no_features` flag is set. -/
def mutedStopSet : feature_recorder_set :=
  { stop_list := some (fun _ _ => true),
    stop_list_recorder := some { name := "email_stopped".toList,
                                 flags := { no_stoplist := true, no_features := true } } }

/-- A set with the default limits, 64 bytes each. -/
def defaultSet : feature_recorder_set := {}

/-- A disabled set in non-pedantic mode with the limits of `smallSet`. -/
def disabledSmallSet : feature_recorder_set :=
  { flags := { disabled := true }, opt_max_feature_size := 4, opt_max_context_size := 6 }

/-- A recorder named `email` whose flag `no_features` is set. -/
def quietRecorder : feature_recorder :=
  { name := "email".toList, flags := { no_features := true } }

/-- A recorder named `email` whose flag `no_context` is set. -/
def bareRecorder : feature_recorder :=
  { name := "email".toList, flags := { no_context := true } }

/-- A recorder named `email` with a context window of 4 bytes. -/
def windowRecorder : feature_recorder := { name := "email".toList, context_window := 4 }

/-- A buffer of 20 bytes at offset 1000, whose margin starts at byte 16. -/
def pageBuf : sbuf_t :=
  { pos0 := pos0_t.make [] 1000, buf := "0123456789abcdefghij".toList, pagesize := 16 }

/-- A set whose output directory is `out`. -/
def carveSet : feature_recorder_set := { outdir := "out".toList }

/-- A set whose stop list matches every feature and whose stop-list recorder has the
default flags, `no_stoplist` unset. -/
def loopSet : feature_recorder_set :=
  { stop_list := some (fun _ _ => true),
    stop_list_recorder := some { name := "email_stopped".toList } }

/-- A buffer of 64 bytes at offset 0, without a margin. -/
def wideBuf : sbuf_t :=
  { pos0 := pos0_t.make [] 0,
    buf := "0123456789abcdefghijklmnopqrstuvwxyzABCDEFGHIJKLMNOPQRSTUVWXYZ+/".toList,
    pagesize := 64 }

/-! ## Lemmas on the library operations -/

theorem ite_ne_dash {c : Prop} [Decidable c] {a b : Char} (ha : a ≠ '-') (hb : b ≠ '-') :
    (if c then a else b) ≠ '-' := by
  split <;> assumption

theorem digitChar_ne_dash (n : Nat) : Nat.digitChar n ≠ '-' := by
  unfold Nat.digitChar
  repeat (refine ite_ne_dash (by decide) ?_)
  decide

theorem toDigitsCore_no_dash (fuel : Nat) : ∀ (n : Nat) (ds : Str),
    (∀ c ∈ ds, c ≠ '-') → ∀ c ∈ Nat.toDigitsCore 10 fuel n ds, c ≠ '-' := by
  induction fuel with
  | zero => intro n ds h c hc; exact h c (by simpa [Nat.toDigitsCore] using hc)
  | succ f ih =>
    intro n ds h c hc
    have hd : ∀ x ∈ Nat.digitChar (n % 10) :: ds, x ≠ '-' := by
      intro x hx
      rcases List.mem_cons.mp hx with rfl | hx
      · exact digitChar_ne_dash _
      · exact h x hx
    simp only [Nat.toDigitsCore] at hc
    split at hc
    · exact hd c hc
    · exact ih _ _ hd c hc

theorem u64_to_string_no_dash (n : Nat) : ∀ c ∈ u64_to_string n, c ≠ '-' :=
  toDigitsCore_no_dash _ _ _ (by simp)

theorem calc_depth_append (a b : Str) :
    pos0_t.calc_depth (a ++ b) = pos0_t.calc_depth a + pos0_t.calc_depth b := by
  simp [pos0_t.calc_depth, List.countP_append]

theorem calc_depth_eq_count (s : Str) : pos0_t.calc_depth s = s.count '-' := by
  induction s with
  | nil => rfl
  | cons x xs ih =>
    simp only [pos0_t.calc_depth] at ih
    by_cases hx : x = '-'
    · subst hx; simp [pos0_t.calc_depth, ih]
    · have : ('-' == x) = false := by simpa using fun h => hx h.symm
      simp [pos0_t.calc_depth, hx, ih, List.count_cons, this]

theorem calc_depth_eq_zero (s : Str) (h : ∀ c ∈ s, c ≠ '-') : pos0_t.calc_depth s = 0 := by
  simp only [pos0_t.calc_depth, List.countP_eq_zero]
  intro c hc
  simpa using h c hc

theorem strLt_iff_lex (a : Str) : ∀ b : Str, strLt a b = true ↔ List.Lex (· < ·) a b := by
  induction a with
  | nil =>
    intro b
    cases b with
    | nil => simp [strLt]
    | cons y ys => simp [strLt, List.Lex.nil]
  | cons x xs ih =>
    intro b
    cases b with
    | nil => simp [strLt]
    | cons y ys =>
      simp only [strLt]
      by_cases hxy : x < y
      · simp [hxy, List.Lex.rel hxy]
      · by_cases hyx : y < x
        · simp only [hxy, hyx, if_false, if_true]
          constructor
          · intro h; cases h
          · intro h
            cases h with
            | cons h => exact absurd hyx (lt_irrefl _)
            | rel h => exact absurd h hxy
        · have hEq : x = y := le_antisymm (not_lt.mp hyx) (not_lt.mp hxy)
          subst hEq
          simp only [hxy, if_false, ih ys]
          constructor
          · intro h; exact List.Lex.cons h
          · intro h
            cases h with
            | cons h => exact h
            | rel h => exact absurd h hxy

theorem strLt_irrefl (a : Str) : strLt a a = false := by
  induction a with
  | nil => rfl
  | cons x xs ih => simp [strLt, ih]

theorem depth_replicate_dash (n o : Nat) :
    (pos0_t.make (List.replicate n '-') o).depth = n % U32 ∧ (List.replicate n '-').count '-' = n := by
  constructor
  · show pos0_t.calc_depth (List.replicate n '-') % U32 = n % U32
    rw [calc_depth_eq_count, List.count_replicate_self]
  · exact List.count_replicate_self _ _

/-! ## Claims on `pos0_t` -/

/-- C1, as stated, fails: for the string of `2^32` dashes the constructor stores depth 0
in its `unsigned int`, while the string holds `2^32` dashes. -/
theorem C1_depth_wraps :
    (pos0_t.make (List.replicate 4294967296 '-') 0).depth = 0 ∧
    (List.replicate 4294967296 '-').count '-' = 4294967296 ∧
    (pos0_t.make (List.replicate 4294967296 '-') 0).depth
      ≠ (List.replicate 4294967296 '-').count '-' := by
  obtain ⟨h1, h2⟩ := depth_replicate_dash 4294967296 0
  have h0 : (pos0_t.make (List.replicate 4294967296 '-') 0).depth = 0 := by
    rw [h1]; decide
  refine ⟨h0, h2, ?_⟩
  rw [h0, h2]; decide

/-- C1, amended: for every string `s` with fewer than `2^32` dashes and every offset `o`, the
forensic path constructed from `(s, o)` has depth equal to the number of dashes in `s`. -/
theorem C1_depth_eq_dash_count (s : Str) (o : Nat) (h : s.count '-' < 4294967296) :
    (pos0_t.make s o).depth = s.count '-' := by
  show pos0_t.calc_depth s % U32 = s.count '-'
  rw [calc_depth_eq_count]
  exact Nat.mod_eq_of_lt h

theorem C1_depth_eq_dash_count_witness :
    "1000-GZIP-300-BASE64".toList.count '-' < 4294967296 ∧
    (pos0_t.make "1000-GZIP-300-BASE64".toList 30).depth = 3 :=
  ⟨by decide, C1_depth_eq_dash_count "1000-GZIP-300-BASE64".toList 30 (by decide)⟩

/-- C2, the code at the failing input: the copy of the path `1000-GZIP` at offset 300, and
its shift by 0 (which returns a copy), have depth 0 although their path holds one dash;
the path constructed from the string has depth 1. -/
theorem C2_copy_drops_depth :
    (pos0_t.make "1000-GZIP".toList 300).depth = 1 ∧
    (pos0_t.copy (pos0_t.make "1000-GZIP".toList 300)).path = "1000-GZIP".toList ∧
    (pos0_t.copy (pos0_t.make "1000-GZIP".toList 300)).depth = 0 ∧
    ((pos0_t.make "1000-GZIP".toList 300).shift 0).path = "1000-GZIP".toList ∧
    ((pos0_t.make "1000-GZIP".toList 300).shift 0).depth = 0 ∧
    "1000-GZIP".toList.count '-' = 1 := by
  decide

/-- C3: for every forensic path `p` with an empty decoder path and every delta `d`,
`p.shift(d)` has the offset `p.offset + d` modulo `2^64` and an empty decoder path. -/
theorem C3_shift_without_path (p : pos0_t) (d : Int) (hp : p.path = [])
    (ho : p.offset < 18446744073709551616) :
    ((p.shift d).offset : Int) = ((p.offset : Int) + d) % 18446744073709551616 ∧
    (p.shift d).path = [] := by
  unfold pos0_t.shift
  by_cases hd : d = 0
  · subst hd
    simp only [if_true, pos0_t.copy, hp, add_zero, and_true]
    rw [Int.emod_eq_of_lt (by omega) (by omega)]
  · simp only [hd, if_false, hp, find, pos0_t.make, and_true, add_u64_i64, U64]
    rw [Int.toNat_of_nonneg (Int.emod_nonneg _ (by decide))]
    norm_num

theorem C3_shift_without_path_witness :
    ((((pos0_t.make [] 5).shift (-10)).offset : Int)
        = (((pos0_t.make [] 5).offset : Int) + (-10)) % 18446744073709551616 ∧
      ((pos0_t.make [] 5).shift (-10)).path = []) ∧
    ((pos0_t.make [] 5).shift (-10)).offset = 18446744073709551611 :=
  ⟨C3_shift_without_path (pos0_t.make [] 5) (-10) rfl (by decide), by decide⟩

/-- C4, the code at the failing input: shifting `1000-GZIP-300-BASE64` (offset 30) by 5
gives the path `105-GZIP-300-BASE64`, because `path.substr(0,p-1)` drops the last digit of
the base offset `1000`; the claim asks for `1005-GZIP-300-BASE64`. -/
theorem C4_shift_drops_last_digit :
    ((pos0_t.make "1000-GZIP-300-BASE64".toList 30).shift 5).path
      = "105-GZIP-300-BASE64".toList ∧
    ((pos0_t.make "1000-GZIP-300-BASE64".toList 30).shift 5).path
      ≠ "1005-GZIP-300-BASE64".toList ∧
    ((pos0_t.make "1000-GZIP-300-BASE64".toList 30).shift 5).offset = 30 ∧
    find "1000-GZIP-300-BASE64".toList '-' = some 4 ∧
    substr "1000-GZIP-300-BASE64".toList 0 (size_pred 4) = "100".toList ∧
    stoi64 "100".toList = 100 := by
  decide

/-- C5: the forensic path `1000-GZIP-300-BASE64-30` (decoder path `1000-GZIP-300-BASE64`,
offset 30, as built from offset 1000 by `+ GZIP`, `+ 300`, `+ BASE64`, `+ 30`) has the
alpha part `GZIP/BASE64`. -/
theorem C5_alphaPart_example :
    (pos0_t.make "1000-GZIP-300-BASE64".toList 30).str = "1000-GZIP-300-BASE64-30".toList ∧
    (pos0_t.make "1000-GZIP-300-BASE64".toList 30).alphaPart = "GZIP/BASE64".toList ∧
    ((((pos0_t.make [] 1000).addSubdir "GZIP".toList).addOffset 300).addSubdir
        "BASE64".toList).addOffset 30 = pos0_t.make "1000-GZIP-300-BASE64".toList 30 := by
  decide

/-- C6: `p < q` holds exactly when `p.path` is lexicographically smaller than `q.path`, or
the two paths are equal and `p.offset < q.offset`. -/
theorem C6_lt_iff (p q : pos0_t) :
    pos0_t.lt p q = true ↔
      (List.Lex (· < ·) p.path q.path ∨ (p.path = q.path ∧ p.offset < q.offset)) := by
  have hirr : ∀ a : Str, ¬ List.Lex (· < ·) a a := fun a h => by
    have := (strLt_iff_lex a a).mpr h
    rw [strLt_irrefl] at this
    exact Bool.false_ne_true this
  unfold pos0_t.lt
  by_cases hpq : p.path = q.path
  · have h1 : ¬ List.Lex (· < ·) p.path q.path := by rw [hpq]; exact hirr _
    by_cases he : p.path.length = 0 ∧ q.path.length = 0
    · simp [he, hpq, hirr q.path]
    · simp [he, hpq, hirr q.path]
  · have he : ¬ (p.path.length = 0 ∧ q.path.length = 0) := by
      rintro ⟨h1, h2⟩
      exact hpq ((List.length_eq_zero.mp h1).trans (List.length_eq_zero.mp h2).symm)
    simp only [he, hpq, if_false, false_and, or_false]
    exact strLt_iff_lex _ _

/-- C7, as stated, fails: the path `1000-GZIP` at offset 300 has depth 1, the tag `BASE64`
holds no dash, and the child path `1000-GZIP-300-BASE64` has depth 3, not 2. -/
theorem C7_child_depth_plus_two :
    '-' ∉ "BASE64".toList ∧
    (pos0_t.make "1000-GZIP".toList 300).depth = 1 ∧
    ((pos0_t.make "1000-GZIP".toList 300).addSubdir "BASE64".toList).path
      = "1000-GZIP-300-BASE64".toList ∧
    ((pos0_t.make "1000-GZIP".toList 300).addSubdir "BASE64".toList).depth = 3 ∧
    ((pos0_t.make "1000-GZIP".toList 300).addSubdir "BASE64".toList).depth
      ≠ (pos0_t.make "1000-GZIP".toList 300).depth + 1 := by
  decide

/-- C7, amended: for every forensic path `p` and every tag `t` without a dash, the child
path `p + t` has depth 1 when the decoder path of `p` is empty, and the number of dashes of
that decoder path plus 2 otherwise (as an `unsigned int`, modulo `2^32`). -/
theorem C7_child_depth (p : pos0_t) (t : Str) (ht : '-' ∉ t) :
    (p.addSubdir t).depth
      = (p.path.count '-' + (if p.path = [] then 1 else 2)) % 4294967296 := by
  have h1 : pos0_t.calc_depth (u64_to_string p.offset) = 0 :=
    calc_depth_eq_zero _ (u64_to_string_no_dash _)
  have h2 : pos0_t.calc_depth t = 0 :=
    calc_depth_eq_zero _ (fun c hc hcd => ht (hcd ▸ hc))
  have h3 : pos0_t.calc_depth ['-'] = 1 := rfl
  have h4 : pos0_t.calc_depth [] = 0 := rfl
  rw [← calc_depth_eq_count]
  by_cases hp : p.path = []
  · simp only [pos0_t.addSubdir, pos0_t.make, hp, calc_depth_append, h1, h2, h3, h4, U32,
      List.length_nil, gt_iff_lt, lt_self_iff_false, if_false, if_true]
  · have hl : p.path.length > 0 := List.length_pos.mpr hp
    simp only [pos0_t.addSubdir, pos0_t.make, hp, hl, calc_depth_append, h1, h2, h3, U32,
      if_false, if_true, Nat.add_zero, Nat.add_assoc]

theorem C7_child_depth_witness :
    '-' ∉ "GZIP".toList ∧
    ((pos0_t.make [] 1000).addSubdir "GZIP".toList).depth
      = ((pos0_t.make [] 1000).path.count '-'
          + (if (pos0_t.make [] 1000).path = [] then 1 else 2)) % 4294967296 ∧
    ((pos0_t.make [] 1000).addSubdir "GZIP".toList).depth = 1 :=
  ⟨by decide, C7_child_depth (pos0_t.make [] 1000) "GZIP".toList (by decide), by decide⟩

/-! ## Lemmas on `write` -/

theorem quote_if_necessary_eq (x : External) (fs : feature_recorder_set)
    (self : feature_recorder) (f c : Str) :
    quote_if_necessary x fs self f (if self.flags.no_context then [] else c)
      = ((sanitize x self f).take fs.opt_max_feature_size,
         if self.flags.no_context then []
         else (sanitize x self c).take fs.opt_max_context_size) := by
  have htake : ∀ (s : Str) (n : Nat), (if s.length > n then s.take n else s) = s.take n := by
    intro s n
    split
    · rfl
    · exact (List.take_of_length_le (by omega)).symm
  unfold quote_if_necessary
  cases hnc : self.flags.no_context <;> simp [htake]

theorem quote_if_necessary_bounds (x : External) (fs : feature_recorder_set)
    (self : feature_recorder) (f c : Str) :
    (quote_if_necessary x fs self f (if self.flags.no_context then [] else c)).1.length
        ≤ fs.opt_max_feature_size ∧
    (quote_if_necessary x fs self f (if self.flags.no_context then [] else c)).2.length
        ≤ fs.opt_max_context_size := by
  rw [quote_if_necessary_eq]
  constructor
  · simp [List.length_take]
  · cases hnc : self.flags.no_context <;> simp [List.length_take]

theorem within_of_returned_nil (fs : feature_recorder_set) {k n : Nat} {recs : List Record}
    (h : some (Outcome.returned [] k) = some (Outcome.returned recs n)) :
    ∀ rec ∈ recs, Record.within fs rec := by
  simp only [Option.some.injEq, Outcome.returned.injEq] at h
  obtain ⟨rfl, -⟩ := h
  intro rec hrec
  simp at hrec

theorem within_of_returned_one (fs : feature_recorder_set) {k n : Nat} {r : Record}
    {recs : List Record} (h : some (Outcome.returned [r] k) = some (Outcome.returned recs n))
    (hr : Record.within fs r) : ∀ rec ∈ recs, Record.within fs rec := by
  simp only [Option.some.injEq, Outcome.returned.injEq] at h
  obtain ⟨rfl, -⟩ := h
  intro rec hrec
  rw [List.mem_singleton] at hrec
  rw [hrec]
  exact hr

theorem write_body_within (x : External) (fs : feature_recorder_set)
    (reroute : feature_recorder → pos0_t → Str → Str → Option Outcome)
    (hre : ∀ r p f c recs n, reroute r p f c = some (Outcome.returned recs n) →
      ∀ rec ∈ recs, Record.within fs rec)
    (self : feature_recorder) (pos0 : pos0_t) (f c : Str) (recs : List Record) (n : Nat)
    (h : write_body x fs reroute self pos0 f c = some (Outcome.returned recs n)) :
    ∀ rec ∈ recs, Record.within fs rec := by
  have hb := quote_if_necessary_bounds x fs self f c
  unfold write_body at h
  simp only [] at h
  generalize (if self.flags.no_context = true then ([] : Str) else c) = ctx at h hb
  generalize quote_if_necessary x fs self f ctx = q at h hb
  split_ifs at h
  all_goals first
    | exact within_of_returned_nil fs h
    | exact absurd h (by simp)
    | skip
  all_goals split at h
  all_goals first
    | exact hre _ _ _ _ _ _ h
    | exact within_of_returned_nil fs h
    | exact within_of_returned_one fs h hb

theorem write_within (x : External) (fs : feature_recorder_set) (fuel : Nat) :
    ∀ (self : feature_recorder) (pos0 : pos0_t) (f c : Str) (recs : List Record) (n : Nat),
      write x fs fuel self pos0 f c = some (Outcome.returned recs n) →
      ∀ rec ∈ recs, Record.within fs rec := by
  induction fuel with
  | zero =>
    intro self pos0 f c recs n h
    exact write_body_within x fs _ (fun _ _ _ _ _ _ h => by simp at h) self pos0 f c recs n h
  | succ k ih =>
    intro self pos0 f c recs n h
    exact write_body_within x fs _ (fun r p f c recs n h => ih r p f c recs n h)
      self pos0 f c recs n h

theorem write_body_direct (x : External) (fs : feature_recorder_set)
    (reroute : feature_recorder → pos0_t → Str → Str → Option Outcome)
    (self : feature_recorder) (pos0 : pos0_t) (f c : Str) (recs : List Record) (n : Nat)
    (hs : stop_list_target fs self (x.make_utf8 f)
      (quote_if_necessary x fs self f (if self.flags.no_context then [] else c)).2 = none)
    (h : write_body x fs reroute self pos0 f c = some (Outcome.returned recs n)) :
    ∀ rec ∈ recs, rec.feature
      = (quote_if_necessary x fs self f (if self.flags.no_context then [] else c)).1 := by
  unfold write_body at h
  simp only [] at h
  rw [hs] at h
  generalize (if self.flags.no_context = true then ([] : Str) else c) = ctx at h
  generalize quote_if_necessary x fs self f ctx = q at h
  simp only [] at h
  split_ifs at h
  all_goals simp only [Option.some.injEq, Outcome.returned.injEq, reduceCtorEq] at h
  all_goals obtain ⟨rfl, -⟩ := h
  all_goals intro rec hrec
  all_goals simp only [List.mem_singleton, List.not_mem_nil] at hrec
  all_goals rw [hrec]

/-! ## Claims on `write` -/

/-- C8: when the recorder set is disabled, `write` stores nothing, in this recorder or in the
stop-list recorder, prints nothing and returns, for every path, feature and context, also
in pedantic mode. -/
theorem C8_disabled_write_is_noop (x : External) (fs : feature_recorder_set) (fuel : Nat)
    (self : feature_recorder) (pos0 : pos0_t) (feature context : Str)
    (h : fs.flags.disabled = true) :
    write x fs fuel self pos0 feature context = some (Outcome.returned [] 0) := by
  cases fuel <;> simp [write, write_body, h]

theorem C8_disabled_write_is_noop_witness :
    disabledSet.flags.pedantic = true ∧
    write plainExternal disabledSet 0 emailRecorder (pos0_t.make [] 100) [] "ctx\t".toList
      = some (Outcome.returned [] 0) :=
  ⟨rfl, C8_disabled_write_is_noop plainExternal disabledSet 0 emailRecorder
    (pos0_t.make [] 100) [] "ctx\t".toList rfl⟩

/-- C9, as stated, fails: with `opt_max_feature_size` 0, in non-pedantic mode, the set not
disabled, no stop list and `no_features` unset, the feature `abc` is not empty after
sanitizing, yet `write` stores no record: the feature is empty after the truncation, and
the write is dropped with a diagnostic. -/
theorem C9_zero_max_feature_size :
    zeroSizeSet.flags.pedantic = false ∧ zeroSizeSet.flags.disabled = false ∧
    sanitize plainExternal emailRecorder "abc".toList ≠ [] ∧
    stop_list_target zeroSizeSet emailRecorder (plainExternal.make_utf8 "abc".toList)
      (quote_if_necessary plainExternal zeroSizeSet emailRecorder "abc".toList
        "context".toList).2 = none ∧
    emailRecorder.flags.no_features = false ∧
    write plainExternal zeroSizeSet 1 emailRecorder (pos0_t.make [] 100) "abc".toList
      "context".toList = some (Outcome.returned [] 1) := by
  decide

/-- C9, amended: in non-pedantic mode, if the set is not disabled, the feature is not empty
after sanitizing and truncating, and the write is not rerouted to the stop list, then
`write` stores exactly one record through this recorder, namely the given path, the
sanitized and truncated feature, and the sanitized and truncated context (the empty
context when context recording is off); when `no_features` is set it stores nothing. -/
theorem C9_write_stores_one_record (x : External) (fs : feature_recorder_set) (fuel : Nat)
    (self : feature_recorder) (pos0 : pos0_t) (feature context : Str)
    (hd : fs.flags.disabled = false) (hp : fs.flags.pedantic = false)
    (hne : (sanitize x self feature).take fs.opt_max_feature_size ≠ [])
    (hs : stop_list_target fs self (x.make_utf8 feature)
      (if self.flags.no_context then []
       else (sanitize x self context).take fs.opt_max_context_size) = none) :
    write x fs fuel self pos0 feature context
      = some (Outcome.returned
          (if self.flags.no_features then []
           else [{ recorder := self.name
                   pos0 := pos0
                   feature := (sanitize x self feature).take fs.opt_max_feature_size
                   context := if self.flags.no_context then []
                              else (sanitize x self context).take fs.opt_max_context_size }])
          0) := by
  have key : ∀ reroute, write_body x fs reroute self pos0 feature context
      = some (Outcome.returned
          (if self.flags.no_features then []
           else [{ recorder := self.name
                   pos0 := pos0
                   feature := (sanitize x self feature).take fs.opt_max_feature_size
                   context := if self.flags.no_context then []
                              else (sanitize x self context).take fs.opt_max_context_size }])
          0) := by
    intro reroute
    have hlen : ¬ ((sanitize x self feature).take fs.opt_max_feature_size).length = 0 :=
      fun h0 => hne (List.length_eq_zero.mp h0)
    unfold write_body
    simp only [quote_if_necessary_eq, hd, hp, hs, hlen, Bool.false_eq_true, if_false,
      false_and]
    cases self.flags.no_features <;> simp
  cases fuel with
  | zero => exact key _
  | succ k => exact key _

theorem C9_write_stores_one_record_witness :
    write plainExternal smallSet 0 emailRecorder (pos0_t.make "1000-GZIP".toList 30)
      "abcdefgh".toList "0123456789".toList
      = some (Outcome.returned
          [{ recorder := "email".toList
             pos0 := pos0_t.make "1000-GZIP".toList 30
             feature := "abcd".toList
             context := "012345".toList }] 0) :=
  C9_write_stores_one_record plainExternal smallSet 0 emailRecorder
    (pos0_t.make "1000-GZIP".toList 30) "abcdefgh".toList "0123456789".toList rfl rfl
    (by decide) (by decide)

/-! ## More lemmas on `write` -/

theorem stop_list_target_of_no_list (fs : feature_recorder_set) (self : feature_recorder)
    (u c : Str) (h : fs.stop_list = none) : stop_list_target fs self u c = none := by
  unfold stop_list_target
  rw [h]
  split <;> rfl

theorem stop_list_target_of_no_stoplist (fs : feature_recorder_set) (self : feature_recorder)
    (u c : Str) (h : self.flags.no_stoplist = true) : stop_list_target fs self u c = none := by
  unfold stop_list_target
  simp [h]

theorem has_tab_nl_cr_of_no_control (s : Str) (h : ∀ ch ∈ s, 32 ≤ ch.toNat) :
    has_tab_nl_cr s = false := by
  unfold has_tab_nl_cr
  rw [List.any_eq_false]
  intro ch hch
  have h32 := h ch hch
  have h1 : ch ≠ '\t' := by rintro rfl; exact absurd h32 (by decide)
  have h2 : ch ≠ '\n' := by rintro rfl; exact absurd h32 (by decide)
  have h3 : ch ≠ '\r' := by rintro rfl; exact absurd h32 (by decide)
  simp [h1, h2, h3]

/-- The result of `write` when the set is not disabled and the write is not rerouted. -/
theorem write_body_direct_eq (x : External) (fs : feature_recorder_set)
    (reroute : feature_recorder → pos0_t → Str → Str → Option Outcome)
    (self : feature_recorder) (pos0 : pos0_t) (f c : Str)
    (hd : fs.flags.disabled = false)
    (hs : stop_list_target fs self (x.make_utf8 f)
      (if self.flags.no_context then []
       else (sanitize x self c).take fs.opt_max_context_size) = none) :
    write_body x fs reroute self pos0 f c =
      if fs.flags.pedantic = true ∧ f.length > fs.opt_max_feature_size then
        some (Outcome.abort 1)
      else if fs.flags.pedantic = true ∧ c.length > fs.opt_max_context_size then
        some (Outcome.abort 1)
      else if (sanitize x self f).take fs.opt_max_feature_size = [] then
        (if fs.flags.pedantic = true then some (Outcome.abort 1)
         else some (Outcome.returned [] 1))
      else if fs.flags.pedantic = true ∧
          (has_tab_nl_cr ((sanitize x self f).take fs.opt_max_feature_size) = true ∨
           has_tab_nl_cr (if self.flags.no_context then []
             else (sanitize x self c).take fs.opt_max_context_size) = true) then
        some (Outcome.abort 0)
      else
        some (Outcome.returned
          (if self.flags.no_features then []
           else [{ recorder := self.name
                   pos0 := pos0
                   feature := (sanitize x self f).take fs.opt_max_feature_size
                   context := if self.flags.no_context then []
                              else (sanitize x self c).take fs.opt_max_context_size }])
          0) := by
  unfold write_body
  simp only [quote_if_necessary_eq, hd, hs, Bool.false_eq_true, if_false,
    List.length_eq_zero]
  cases self.flags.no_features <;> simp

theorem write_direct_eq (x : External) (fs : feature_recorder_set) (fuel : Nat)
    (self : feature_recorder) (pos0 : pos0_t) (f c : Str)
    (hd : fs.flags.disabled = false)
    (hs : stop_list_target fs self (x.make_utf8 f)
      (if self.flags.no_context then []
       else (sanitize x self c).take fs.opt_max_context_size) = none) :
    write x fs fuel self pos0 f c = write_body x fs (fun _ _ _ _ => none) self pos0 f c := by
  cases fuel with
  | zero => rfl
  | succ k =>
    show write_body x fs (write x fs k) self pos0 f c = _
    rw [write_body_direct_eq x fs _ self pos0 f c hd hs,
      write_body_direct_eq x fs _ self pos0 f c hd hs]

/-- The result of `write` when the write is rerouted: the call of the stop-list recorder
on the feature and the context that left `quote_if_necessary`. -/
theorem write_body_rerouted (x : External) (fs : feature_recorder_set)
    (reroute : feature_recorder → pos0_t → Str → Str → Option Outcome)
    (self stop_rec : feature_recorder) (pos0 : pos0_t) (f c : Str)
    (hd : fs.flags.disabled = false) (hp : fs.flags.pedantic = false)
    (hne : (sanitize x self f).take fs.opt_max_feature_size ≠ [])
    (hs : stop_list_target fs self (x.make_utf8 f)
      (if self.flags.no_context then []
       else (sanitize x self c).take fs.opt_max_context_size) = some stop_rec) :
    write_body x fs reroute self pos0 f c
      = reroute stop_rec pos0 ((sanitize x self f).take fs.opt_max_feature_size)
          (if self.flags.no_context then []
           else (sanitize x self c).take fs.opt_max_context_size) := by
  have hlen : ¬ ((sanitize x self f).take fs.opt_max_feature_size).length = 0 :=
    fun h0 => hne (List.length_eq_zero.mp h0)
  unfold write_body
  simp only [quote_if_necessary_eq, hd, hp, hs, hlen, Bool.false_eq_true, if_false,
    false_and]

/-! ## Claims on the size limits of `write` -/

/-- C10, as stated, fails: in non-pedantic mode a feature of eight bytes, longer than the
limit, is not stored at all when the limit is 0 (the write is dropped with a diagnostic),
when the set is disabled, or when the recorder has `no_features` set. -/
theorem C10_long_feature_not_stored :
    zeroSizeSet.flags.pedantic = false ∧
    "abcdefgh".toList.length > zeroSizeSet.opt_max_feature_size ∧
    write plainExternal zeroSizeSet 0 emailRecorder (pos0_t.make [] 100) "abcdefgh".toList
      "ctx".toList = some (Outcome.returned [] 1) ∧
    disabledSmallSet.flags.pedantic = false ∧
    "abcdefgh".toList.length > disabledSmallSet.opt_max_feature_size ∧
    write plainExternal disabledSmallSet 0 emailRecorder (pos0_t.make [] 100)
      "abcdefgh".toList "ctx".toList = some (Outcome.returned [] 0) ∧
    smallSet.flags.pedantic = false ∧
    "abcdefgh".toList.length > smallSet.opt_max_feature_size ∧
    write plainExternal smallSet 0 quietRecorder (pos0_t.make [] 100) "abcdefgh".toList
      "ctx".toList = some (Outcome.returned [] 0) := by
  decide

/-- C10, amended: in non-pedantic mode, the set not disabled and `opt_max_feature_size` not
0, a feature that is longer than `opt_max_feature_size` after sanitizing is cut to exactly
its first `opt_max_feature_size` bytes. When the write is not rerouted to the stop list,
`write` returns having stored one record with that feature, the given path and the
sanitized and cut context (no record when `no_features` is set); when it is rerouted, the
cut feature and context are what the `write` of the stop-list recorder is called on. And
every record that any returning `write` of the set stores, at any depth of rerouting, has
a feature of at most `opt_max_feature_size` bytes and a context of at most
`opt_max_context_size` bytes. -/
theorem C10_long_feature_is_cut (x : External) (fs : feature_recorder_set) (fuel : Nat)
    (self : feature_recorder) (pos0 : pos0_t) (feature context : Str)
    (hd : fs.flags.disabled = false) (hp : fs.flags.pedantic = false)
    (hlong : fs.opt_max_feature_size < (sanitize x self feature).length)
    (hpos : 0 < fs.opt_max_feature_size) :
    ((sanitize x self feature).take fs.opt_max_feature_size).length
      = fs.opt_max_feature_size ∧
    (stop_list_target fs self (x.make_utf8 feature)
        (if self.flags.no_context then []
         else (sanitize x self context).take fs.opt_max_context_size) = none →
      write x fs fuel self pos0 feature context
        = some (Outcome.returned
            (if self.flags.no_features then []
             else [{ recorder := self.name
                     pos0 := pos0
                     feature := (sanitize x self feature).take fs.opt_max_feature_size
                     context := if self.flags.no_context then []
                                else (sanitize x self context).take
                                  fs.opt_max_context_size }])
            0)) ∧
    (∀ stop_rec : feature_recorder,
      stop_list_target fs self (x.make_utf8 feature)
        (if self.flags.no_context then []
         else (sanitize x self context).take fs.opt_max_context_size) = some stop_rec →
      write x fs (fuel + 1) self pos0 feature context
        = write x fs fuel stop_rec pos0
            ((sanitize x self feature).take fs.opt_max_feature_size)
            (if self.flags.no_context then []
             else (sanitize x self context).take fs.opt_max_context_size)) ∧
    (∀ (k : Nat) (self2 : feature_recorder) (pos2 : pos0_t) (f2 c2 : Str)
        (recs : List Record) (n : Nat),
      write x fs k self2 pos2 f2 c2 = some (Outcome.returned recs n) →
      ∀ r ∈ recs, r.feature.length ≤ fs.opt_max_feature_size ∧
        r.context.length ≤ fs.opt_max_context_size) := by
  have hlen : ((sanitize x self feature).take fs.opt_max_feature_size).length
      = fs.opt_max_feature_size := by
    rw [List.length_take]
    omega
  have hne : (sanitize x self feature).take fs.opt_max_feature_size ≠ [] := by
    intro h0
    rw [h0] at hlen
    simp only [List.length_nil] at hlen
    omega
  refine ⟨hlen, ?_, ?_, ?_⟩
  · intro hs
    rw [write_direct_eq x fs fuel self pos0 feature context hd hs,
      write_body_direct_eq x fs _ self pos0 feature context hd hs]
    simp only [hp, hne, Bool.false_eq_true, false_and, if_false]
  · intro stop_rec hs
    show write_body x fs (write x fs fuel) self pos0 feature context = _
    exact write_body_rerouted x fs _ self stop_rec pos0 feature context hd hp hne hs
  · intro k self2 pos2 f2 c2 recs n h
    exact write_within x fs k self2 pos2 f2 c2 recs n h

theorem C10_long_feature_is_cut_witness :
    smallSet.opt_max_feature_size = 4 ∧
    write plainExternal smallSet 0 emailRecorder (pos0_t.make [] 100)
      "john@example.com".toList "mail john@example.com".toList
      = some (Outcome.returned
          [{ recorder := "email".toList
             pos0 := pos0_t.make [] 100
             feature := "john".toList
             context := "mail j".toList }] 0) ∧
    write plainExternal smallSet 0 quietRecorder (pos0_t.make [] 100)
      "john@example.com".toList "mail john@example.com".toList
      = some (Outcome.returned [] 0) :=
  ⟨rfl,
   (C10_long_feature_is_cut plainExternal smallSet 0 emailRecorder (pos0_t.make [] 100)
      "john@example.com".toList "mail john@example.com".toList rfl rfl (by decide)
      (by decide)).2.1 (by decide),
   (C10_long_feature_is_cut plainExternal smallSet 0 quietRecorder (pos0_t.make [] 100)
      "john@example.com".toList "mail john@example.com".toList rfl rfl (by decide)
      (by decide)).2.1 (by decide)⟩

/-! ## Claims on the checks of `write` -/

/-- C11: in pedantic mode, with the set not disabled and no stop list, `write` aborts if
and only if the raw feature is longer than `opt_max_feature_size`, or the raw context is
longer than `opt_max_context_size`, or the feature is empty after `quote_if_necessary`, or
the feature or the context holds a tab, newline or carriage return after
`quote_if_necessary` (sanitized and cut to the limits; the context is empty when context
recording is off); in every other case it returns. -/
theorem C11_pedantic_abort_iff (x : External) (fs : feature_recorder_set) (fuel : Nat)
    (self : feature_recorder) (pos0 : pos0_t) (feature context : Str)
    (hp : fs.flags.pedantic = true) (hd : fs.flags.disabled = false)
    (hs : fs.stop_list = none) :
    ((∃ k, write x fs fuel self pos0 feature context = some (Outcome.abort k)) ↔
      (feature.length > fs.opt_max_feature_size ∨
       context.length > fs.opt_max_context_size ∨
       (sanitize x self feature).take fs.opt_max_feature_size = [] ∨
       has_tab_nl_cr ((sanitize x self feature).take fs.opt_max_feature_size) = true ∨
       has_tab_nl_cr (if self.flags.no_context then []
         else (sanitize x self context).take fs.opt_max_context_size) = true)) ∧
    ((∃ recs n, write x fs fuel self pos0 feature context
        = some (Outcome.returned recs n)) ↔
      ¬ (feature.length > fs.opt_max_feature_size ∨
         context.length > fs.opt_max_context_size ∨
         (sanitize x self feature).take fs.opt_max_feature_size = [] ∨
         has_tab_nl_cr ((sanitize x self feature).take fs.opt_max_feature_size) = true ∨
         has_tab_nl_cr (if self.flags.no_context then []
           else (sanitize x self context).take fs.opt_max_context_size) = true)) := by
  have hst := stop_list_target_of_no_list fs self (x.make_utf8 feature)
    (if self.flags.no_context then []
     else (sanitize x self context).take fs.opt_max_context_size) hs
  rw [write_direct_eq x fs fuel self pos0 feature context hd hst,
    write_body_direct_eq x fs _ self pos0 feature context hd hst]
  simp only [hp, true_and, if_true]
  by_cases h1 : feature.length > fs.opt_max_feature_size
  · simp [h1]
  · by_cases h2 : context.length > fs.opt_max_context_size
    · simp [h1, h2]
    · by_cases h3 : (sanitize x self feature).take fs.opt_max_feature_size = []
      · simp [h1, h2, h3]
      · by_cases h4 : has_tab_nl_cr
            ((sanitize x self feature).take fs.opt_max_feature_size) = true
        · simp [h1, h2, h3, h4]
        · by_cases h5 : has_tab_nl_cr (if self.flags.no_context then []
              else (sanitize x self context).take fs.opt_max_context_size) = true
          · simp [h1, h2, h3, h4, h5]
          · simp [h1, h2, h3, h4, h5]

theorem C11_pedantic_abort_iff_witness :
    (∃ k, write plainExternal pedanticSet 0 emailRecorder (pos0_t.make [] 100)
        "a\tb".toList "ctx".toList = some (Outcome.abort k)) ∧
    (∃ recs n, write plainExternal pedanticSet 0 emailRecorder (pos0_t.make [] 100)
        "ab".toList "ctx".toList = some (Outcome.returned recs n)) :=
  ⟨(C11_pedantic_abort_iff plainExternal pedanticSet 0 emailRecorder (pos0_t.make [] 100)
      "a\tb".toList "ctx".toList rfl rfl rfl).1.mpr (by decide),
   (C11_pedantic_abort_iff plainExternal pedanticSet 0 emailRecorder (pos0_t.make [] 100)
      "ab".toList "ctx".toList rfl rfl rfl).2.mpr (by decide)⟩

/-- C12, as stated, fails: on a disabled set in non-pedantic mode, a write whose feature is
empty after sanitizing returns with no record and no diagnostic, not one. -/
theorem C12_disabled_no_diagnostic :
    disabledPlainSet.flags.pedantic = false ∧
    sanitize plainExternal emailRecorder [] = [] ∧
    write plainExternal disabledPlainSet 0 emailRecorder (pos0_t.make [] 100) []
      "ctx".toList = some (Outcome.returned [] 0) ∧
    write plainExternal disabledPlainSet 0 emailRecorder (pos0_t.make [] 100) []
      "ctx".toList ≠ some (Outcome.returned [] 1) := by
  decide

/-- C12, amended: in non-pedantic mode, with the set not disabled, a write whose feature is
empty after sanitizing stores no record, in this recorder or in the stop-list recorder,
sends one diagnostic and returns. -/
theorem C12_empty_feature_dropped (x : External) (fs : feature_recorder_set) (fuel : Nat)
    (self : feature_recorder) (pos0 : pos0_t) (feature context : Str)
    (hp : fs.flags.pedantic = false) (hd : fs.flags.disabled = false)
    (he : sanitize x self feature = []) :
    write x fs fuel self pos0 feature context = some (Outcome.returned [] 1) := by
  have key : ∀ reroute, write_body x fs reroute self pos0 feature context
      = some (Outcome.returned [] 1) := by
    intro reroute
    unfold write_body
    simp [quote_if_necessary_eq, hp, hd, he]
  cases fuel with
  | zero => exact key _
  | succ k => exact key _

theorem C12_empty_feature_dropped_witness :
    write plainExternal stopSet 1 emailRecorder (pos0_t.make [] 100) [] "ctx".toList
      = some (Outcome.returned [] 1) :=
  C12_empty_feature_dropped plainExternal stopSet 1 emailRecorder (pos0_t.make [] 100) []
    "ctx".toList rfl rfl rfl

/-- C13, as stated, fails: with a stop list that matches every feature, a stop-list
recorder and a recorder that takes part in the filtering, a write stores no record at all
when the set is disabled, and none either when the stop-list recorder has `no_features`
set. -/
theorem C13_stop_store_stays_empty :
    emailRecorder.flags.no_stoplist = false ∧
    disabledStopSet.stop_list.isSome = true ∧
    disabledStopSet.stop_list_recorder = some stoppedRecorder ∧
    write plainExternal disabledStopSet 1 emailRecorder (pos0_t.make [] 100) "abc".toList
      "ctx".toList = some (Outcome.returned [] 0) ∧
    mutedStopSet.flags.disabled = false ∧
    stop_list_target mutedStopSet emailRecorder "abc".toList "ctx".toList ≠ none ∧
    write plainExternal mutedStopSet 1 emailRecorder (pos0_t.make [] 100) "abc".toList
      "ctx".toList = some (Outcome.returned [] 0) := by
  decide

/-- C13, amended: in non-pedantic mode, with the set not disabled, a stop list and a
stop-list recorder configured and this recorder taking part in the filtering, a feature
that is not empty after sanitizing and truncating and that matches the stop list is
stored once, by the stop-list recorder, and not by this recorder, provided that the
stop-list recorder is another recorder, has `no_stoplist` set and `no_features` unset, and
that the feature is still not empty after the sanitizing of the stop-list recorder. -/
theorem C13_rerouted_once (x : External) (fs : feature_recorder_set) (fuel : Nat)
    (self stop_rec : feature_recorder) (check : Str → Str → Bool)
    (pos0 : pos0_t) (feature context : Str)
    (hp : fs.flags.pedantic = false) (hd : fs.flags.disabled = false)
    (hl : fs.stop_list = some check) (hr : fs.stop_list_recorder = some stop_rec)
    (hpart : self.flags.no_stoplist = false)
    (hne : (sanitize x self feature).take fs.opt_max_feature_size ≠ [])
    (hm : check (x.make_utf8 feature)
      (if self.flags.no_context then []
       else (sanitize x self context).take fs.opt_max_context_size) = true)
    (hname : stop_rec.name ≠ self.name)
    (hsr : stop_rec.flags.no_stoplist = true) (hsf : stop_rec.flags.no_features = false)
    (hne2 : (sanitize x stop_rec
      ((sanitize x self feature).take fs.opt_max_feature_size)).take
        fs.opt_max_feature_size ≠ []) :
    ∃ recs, write x fs (fuel + 1) self pos0 feature context
        = some (Outcome.returned recs 0) ∧
      (recs.filter (fun r => decide (r.recorder = self.name))).length = 0 ∧
      (recs.filter (fun r => decide (r.recorder = stop_rec.name))).length = 1 ∧
      recs = [{ recorder := stop_rec.name
                pos0 := pos0
                feature := (sanitize x stop_rec
                  ((sanitize x self feature).take fs.opt_max_feature_size)).take
                    fs.opt_max_feature_size
                context := if stop_rec.flags.no_context then []
                  else (sanitize x stop_rec
                    (if self.flags.no_context then []
                     else (sanitize x self context).take fs.opt_max_context_size)).take
                      fs.opt_max_context_size }] := by
  have hinner := write_direct_eq x fs fuel stop_rec pos0
    ((sanitize x self feature).take fs.opt_max_feature_size)
    (if self.flags.no_context then []
     else (sanitize x self context).take fs.opt_max_context_size) hd
    (stop_list_target_of_no_stoplist fs stop_rec _ _ hsr)
  rw [write_body_direct_eq x fs _ stop_rec pos0 _ _ hd
    (stop_list_target_of_no_stoplist fs stop_rec _ _ hsr)] at hinner
  simp only [hp, Bool.false_eq_true, false_and, if_false, hne2, hsf] at hinner
  have htarget : stop_list_target fs self (x.make_utf8 feature)
      (if self.flags.no_context then []
       else (sanitize x self context).take fs.opt_max_context_size) = some stop_rec := by
    unfold stop_list_target
    simp [hpart, hl, hr, hm]
  have hlen : ¬ ((sanitize x self feature).take fs.opt_max_feature_size).length = 0 :=
    fun h0 => hne (List.length_eq_zero.mp h0)
  refine ⟨_, ?_, ?_, ?_, rfl⟩
  · show write_body x fs (write x fs fuel) self pos0 feature context = _
    unfold write_body
    simp only [quote_if_necessary_eq, hd, hp, hlen, htarget, Bool.false_eq_true, if_false,
      false_and]
    exact hinner
  · simp [hname]
  · simp

theorem C13_rerouted_once_witness :
    ∃ recs, write plainExternal stopSet 1 emailRecorder (pos0_t.make [] 100) "abc".toList
        "ctx".toList = some (Outcome.returned recs 0) ∧
      (recs.filter (fun r => decide (r.recorder = emailRecorder.name))).length = 0 ∧
      (recs.filter (fun r => decide (r.recorder = stoppedRecorder.name))).length = 1 ∧
      recs = [{ recorder := "email_stopped".toList
                pos0 := pos0_t.make [] 100
                feature := "abc".toList
                context := "ctx".toList }] :=
  C13_rerouted_once plainExternal stopSet 0 emailRecorder stoppedRecorder (fun _ _ => true)
    (pos0_t.make [] 100) "abc".toList "ctx".toList rfl rfl rfl rfl rfl (by decide) rfl
    (by decide) rfl rfl (by decide)

/-- The sanitizer copies a string of well-formed UTF-8 sequences that holds no control
character and, when backslashes are escaped, no backslash. -/
theorem escape_loop_valid (bad bs : Bool) (s : Str) :
    ∀ skip : Nat, utf8_valid_loop skip s = true → (∀ ch ∈ s, 32 ≤ ch.toNat) →
      (bs = true → '\\' ∉ s) → escape_loop bad bs skip s = s := by
  induction s with
  | nil =>
    intro skip _ _ _
    cases skip <;> rfl
  | cons c rest ih =>
    intro skip hv hc hb
    have hc2 : ∀ ch ∈ rest, 32 ≤ ch.toNat := fun ch h => hc ch (List.mem_cons_of_mem _ h)
    have hb2 : bs = true → '\\' ∉ rest := fun h hm => hb h (List.mem_cons_of_mem _ hm)
    cases skip with
    | succ k =>
      simp only [utf8_valid_loop] at hv
      simp only [escape_loop, ih k hv hc2 hb2]
    | zero =>
      simp only [utf8_valid_loop, Bool.and_eq_true, decide_eq_true_eq] at hv
      have h1 : ¬ (c = '\\' ∧ bs = true) :=
        fun h => hb h.2 (h.1 ▸ List.mem_cons_self _ _)
      have h2 : ¬ (c.toNat < 32 ∧ bad = true) := by
        intro h
        have := hc c (List.mem_cons_self _ _)
        omega
      simp only [escape_loop, h1, h2, if_false, hv.1, ih _ hv.2 hc2 hb2]

theorem sanitize_valid (m : Str → Str) (v : Bool) (self : feature_recorder) (s : Str)
    (hv : utf8_valid s = true) (hc : ∀ ch ∈ s, 32 ≤ ch.toNat)
    (hb : (escape_flags self.flags).2 = true → '\\' ∉ s) :
    sanitize (sanitizingExternal m v) self s = s :=
  escape_loop_valid _ _ s 0 hv hc hb

/-- C14, as stated, fails. With the default flags the backslash of the feature `a\b` (valid
UTF-8, no control character) is escaped and the stored feature is `a\x5cb`; a feature of 65
letters `a` written to a set with the default limit of 64 bytes is stored as 64 letters;
and a recorder with `no_context` set stores the empty context. -/
theorem C14_bytes_are_changed :
    utf8_valid "a\\b".toList = true ∧ (∀ ch ∈ "a\\b".toList, 32 ≤ ch.toNat) ∧
    utf8_valid "ctx".toList = true ∧ (∀ ch ∈ "ctx".toList, 32 ≤ ch.toNat) ∧
    write (sanitizingExternal (fun s => s) false) defaultSet 0 emailRecorder
      (pos0_t.make [] 100) "a\\b".toList "ctx".toList
      = some (Outcome.returned
          [{ recorder := "email".toList
             pos0 := pos0_t.make [] 100
             feature := "a\\x5cb".toList
             context := "ctx".toList }] 0) ∧
    "a\\x5cb".toList ≠ "a\\b".toList ∧
    utf8_valid (List.replicate 65 'a') = true ∧
    (∀ ch ∈ List.replicate 65 'a', 32 ≤ ch.toNat) ∧
    write (sanitizingExternal (fun s => s) false) defaultSet 0 emailRecorder
      (pos0_t.make [] 100) (List.replicate 65 'a') "ctx".toList
      = some (Outcome.returned
          [{ recorder := "email".toList
             pos0 := pos0_t.make [] 100
             feature := List.replicate 64 'a'
             context := "ctx".toList }] 0) ∧
    write (sanitizingExternal (fun s => s) false) defaultSet 0 bareRecorder
      (pos0_t.make [] 100) "abc".toList "ctx".toList
      = some (Outcome.returned
          [{ recorder := "email".toList
             pos0 := pos0_t.make [] 100
             feature := "abc".toList
             context := [] }] 0) := by
  decide

/-- C14, amended: for every feature and context of valid UTF-8 with no control character,
and with no backslash unless the recorder has `no_quote` or `xml` set, the feature not
empty and within `opt_max_feature_size`, the context within `opt_max_context_size`, and
context recording on, `write` (the set not disabled, the write not rerouted, `no_features`
unset) returns having stored one record, which carries exactly the feature bytes and
context bytes that were passed in; this holds in pedantic and in non-pedantic mode. -/
theorem C14_round_trip (m : Str → Str) (v : Bool) (fs : feature_recorder_set) (fuel : Nat)
    (self : feature_recorder) (pos0 : pos0_t) (feature context : Str)
    (hd : fs.flags.disabled = false)
    (hvf : utf8_valid feature = true) (hvc : utf8_valid context = true)
    (hcf : ∀ ch ∈ feature, 32 ≤ ch.toNat) (hcc : ∀ ch ∈ context, 32 ≤ ch.toNat)
    (hbs : (self.flags.no_quote = false ∧ self.flags.xml = false) →
      '\\' ∉ feature ∧ '\\' ∉ context)
    (hne : feature ≠ [])
    (hlf : feature.length ≤ fs.opt_max_feature_size)
    (hlc : context.length ≤ fs.opt_max_context_size)
    (hctx : self.flags.no_context = false) (hnf : self.flags.no_features = false)
    (hs : stop_list_target fs self (m feature) context = none) :
    write (sanitizingExternal m v) fs fuel self pos0 feature context
      = some (Outcome.returned
          [{ recorder := self.name, pos0 := pos0, feature := feature, context := context }]
          0) := by
  have hflag : (escape_flags self.flags).2 = true →
      (self.flags.no_quote = false ∧ self.flags.xml = false) := by
    unfold escape_flags
    cases self.flags.no_quote <;> cases self.flags.xml <;> simp
  have hsf : sanitize (sanitizingExternal m v) self feature = feature :=
    sanitize_valid m v self feature hvf hcf (fun h => (hbs (hflag h)).1)
  have hsc : sanitize (sanitizingExternal m v) self context = context :=
    sanitize_valid m v self context hvc hcc (fun h => (hbs (hflag h)).2)
  have hf : (sanitize (sanitizingExternal m v) self feature).take fs.opt_max_feature_size
      = feature := by
    rw [hsf]; exact List.take_of_length_le hlf
  have hc : (if self.flags.no_context then []
      else (sanitize (sanitizingExternal m v) self context).take fs.opt_max_context_size)
      = context := by
    rw [hctx, hsc]; simpa using List.take_of_length_le hlc
  have hst : stop_list_target fs self ((sanitizingExternal m v).make_utf8 feature)
      (if self.flags.no_context then []
       else (sanitize (sanitizingExternal m v) self context).take fs.opt_max_context_size)
      = none := by
    rw [hc]; exact hs
  rw [write_direct_eq _ fs fuel self pos0 feature context hd hst,
    write_body_direct_eq _ fs _ self pos0 feature context hd hst, hf, hc]
  have h1 : ¬ feature.length > fs.opt_max_feature_size := by omega
  have h2 : ¬ context.length > fs.opt_max_context_size := by omega
  simp [h1, h2, hne, hnf, has_tab_nl_cr_of_no_control feature hcf,
    has_tab_nl_cr_of_no_control context hcc]

theorem C14_round_trip_witness :
    utf8_valid ['c', 'a', 'f', Char.ofNat 195, Char.ofNat 169, '@', 'x', '.', 'o', 'r', 'g']
      = true ∧
    write (sanitizingExternal (fun s => s) false) pedanticSet 0 emailRecorder
      (pos0_t.make "1000-GZIP".toList 30)
      ['c', 'a', 'f', Char.ofNat 195, Char.ofNat 169, '@', 'x', '.', 'o', 'r', 'g']
      "mail user@example.com now".toList
      = some (Outcome.returned
          [{ recorder := "email".toList
             pos0 := pos0_t.make "1000-GZIP".toList 30
             feature :=
               ['c', 'a', 'f', Char.ofNat 195, Char.ofNat 169, '@', 'x', '.', 'o', 'r', 'g']
             context := "mail user@example.com now".toList }] 0) :=
  ⟨by decide,
   C14_round_trip (fun s => s) false pedanticSet 0 emailRecorder
    (pos0_t.make "1000-GZIP".toList 30)
    ['c', 'a', 'f', Char.ofNat 195, Char.ofNat 169, '@', 'x', '.', 'o', 'r', 'g']
    "mail user@example.com now".toList rfl (by decide) (by decide) (by decide) (by decide)
    (fun _ => by decide) (by decide) (by decide) (by decide) rfl rfl rfl⟩

/-- C15: for every combination of the recorder flags `quote_if_necessary` calls the
sanitizer in one of three modes, both escapes on (neither `no_quote` nor `xml`), both off
(`no_quote` without `xml`) or invalid UTF-8 only (`xml`); it never escapes backslashes
without escaping invalid UTF-8; and the feature and the context (which is sanitized only
when context recording is on) go through the sanitizer with the same two flags, before
they are cut to the limits. -/
theorem C15_three_modes (x : External) (fs : feature_recorder_set) (self : feature_recorder)
    (feature context : Str) :
    (escape_flags self.flags =
      if self.flags.xml then (true, false)
      else if self.flags.no_quote then (false, false) else (true, true)) ∧
    ((self.flags.no_quote = false ∧ self.flags.xml = false ∧
        escape_flags self.flags = (true, true)) ∨
     (self.flags.no_quote = true ∧ self.flags.xml = false ∧
        escape_flags self.flags = (false, false)) ∨
     (self.flags.xml = true ∧ escape_flags self.flags = (true, false))) ∧
    escape_flags self.flags ≠ (false, true) ∧
    (quote_if_necessary x fs self feature context).1
      = (x.validateOrEscapeUTF8 feature (escape_flags self.flags).1
          (escape_flags self.flags).2 x.validateOrEscapeUTF8_validate).take
            fs.opt_max_feature_size ∧
    (quote_if_necessary x fs self feature context).2
      = (if self.flags.no_context then context
         else (x.validateOrEscapeUTF8 context (escape_flags self.flags).1
            (escape_flags self.flags).2 x.validateOrEscapeUTF8_validate).take
              fs.opt_max_context_size) := by
  have htake : ∀ (s : Str) (n : Nat), (if s.length > n then s.take n else s) = s.take n := by
    intro s n
    split
    · rfl
    · exact (List.take_of_length_le (by omega)).symm
  refine ⟨?_, ?_, ?_, ?_, ?_⟩
  · unfold escape_flags
    cases self.flags.xml <;> cases self.flags.no_quote <;> rfl
  · unfold escape_flags
    cases self.flags.xml <;> cases self.flags.no_quote <;> simp
  · unfold escape_flags
    cases self.flags.xml <;> cases self.flags.no_quote <;> simp
  · unfold quote_if_necessary sanitize
    simp only [htake]
  · unfold quote_if_necessary sanitize
    cases self.flags.no_context <;> simp [htake]

/-! ## Claims on `write_buf` -/

theorem addOffset_to_i64 (p : pos0_t) (pos : Nat) :
    p.addOffset (to_i64 pos) = pos0_t.make p.path ((p.offset + pos) % U64) := by
  have e : add_u64_i64 p.offset (to_i64 pos) = (p.offset + pos) % U64 := by
    unfold add_u64_i64 to_i64
    unfold U64 at *
    push_cast
    omega
  unfold pos0_t.addOffset
  rw [e]

/-- The behaviour of `write_buf` inside the page when no sum of `size_t` wraps: one call of
`write` with the path `sbuf.pos0 + pos`, the bytes `[pos, min(pos+len, bufsize))` as
feature, and as context the bytes `[pos - context_window, min(pos+len+context_window,
bufsize))` with the clamped `len`, or nothing when context recording is off. -/
theorem write_buf_args_in_page (self : feature_recorder) (sbuf : sbuf_t) (pos len : Nat)
    (h1 : pos < sbuf.pagesize) (h2 : pos < sbuf.bufsize)
    (h3 : pos + len + self.context_window < U64) :
    write_buf_args self sbuf pos len =
      write_buf_step.call (pos0_t.make sbuf.pos0.path ((sbuf.pos0.offset + pos) % U64))
        ((sbuf.buf.drop pos).take (min (pos + len) sbuf.bufsize - pos))
        (if self.flags.no_context then []
         else (sbuf.buf.drop (pos - self.context_window)).take
           (min (pos + min len (sbuf.bufsize - pos) + self.context_window) sbuf.bufsize
             - (pos - self.context_window))) := by
  unfold write_buf_args
  rw [addOffset_to_i64]
  have hc1 : ¬ (pos ≥ sbuf.pagesize ∧ pos < sbuf.bufsize) := by omega
  have hc2 : ¬ (pos ≥ sbuf.bufsize) := by omega
  have hm1 : (pos + len) % U64 = pos + len := Nat.mod_eq_of_lt (by omega)
  simp only [hc1, hc2, if_false, hm1, sbuf_t.substr, substr]
  by_cases hcl : pos + len > sbuf.bufsize
  · have hm2 : (pos + (sbuf.bufsize - pos) + self.context_window) % U64
        = pos + (sbuf.bufsize - pos) + self.context_window := Nat.mod_eq_of_lt (by omega)
    have e1 : min (pos + len) sbuf.bufsize - pos = sbuf.bufsize - pos := by omega
    have e2 : min len (sbuf.bufsize - pos) = sbuf.bufsize - pos := by omega
    simp only [hcl, if_true, hm2, e1, e2]
    cases hnc : self.flags.no_context
    · by_cases hw : self.context_window < pos
      · have g1 : pos + (sbuf.bufsize - pos) + self.context_window > sbuf.bufsize ∨
            pos + (sbuf.bufsize - pos) + self.context_window = sbuf.bufsize := by omega
        rcases g1 with g | g
        · have e3 : min (pos + (sbuf.bufsize - pos) + self.context_window) sbuf.bufsize
              = sbuf.bufsize := by omega
          have e4 : pos - self.context_window ≤ sbuf.bufsize := by omega
          simp [hw, g, e3, e4]
        · have e4 : pos - self.context_window ≤ sbuf.bufsize := by omega
          simp [hw, g, e4]
      · have e5 : pos - self.context_window = 0 := by omega
        by_cases g : pos + (sbuf.bufsize - pos) + self.context_window > sbuf.bufsize
        · have e3 : min (pos + (sbuf.bufsize - pos) + self.context_window) sbuf.bufsize
              = sbuf.bufsize := by omega
          simp [hw, g, e3, e5]
        · have e3 : min (pos + (sbuf.bufsize - pos) + self.context_window) sbuf.bufsize
              = pos + (sbuf.bufsize - pos) + self.context_window := by omega
          simp [hw, g, e3, e5]
    · simp
  · have hm2 : (pos + len + self.context_window) % U64 = pos + len + self.context_window :=
      Nat.mod_eq_of_lt h3
    have e1 : min (pos + len) sbuf.bufsize - pos = len := by omega
    have e2 : min len (sbuf.bufsize - pos) = len := by omega
    simp only [hcl, if_false, hm2, e1, e2]
    cases hnc : self.flags.no_context
    · by_cases hw : self.context_window < pos
      · by_cases g : pos + len + self.context_window > sbuf.bufsize
        · have e3 : min (pos + len + self.context_window) sbuf.bufsize = sbuf.bufsize := by
            omega
          have e4 : pos - self.context_window ≤ sbuf.bufsize := by omega
          simp [hw, g, e3, e4]
        · have e3 : min (pos + len + self.context_window) sbuf.bufsize
              = pos + len + self.context_window := by omega
          have e4 : pos - self.context_window ≤ pos + len + self.context_window := by omega
          simp [hw, g, e3, e4]
      · have e5 : pos - self.context_window = 0 := by omega
        by_cases g : pos + len + self.context_window > sbuf.bufsize
        · have e3 : min (pos + len + self.context_window) sbuf.bufsize = sbuf.bufsize := by
            omega
          simp [hw, g, e3, e5]
        · have e3 : min (pos + len + self.context_window) sbuf.bufsize
              = pos + len + self.context_window := by omega
          simp [hw, g, e3, e5]
    · simp

/-- C16: whenever `pos` lies in the margin or at or beyond the end of the buffer,
`write_buf` returns without a call of `write`, for every `len`: it stores nothing, and it
sends one diagnostic exactly when `pos` is at or beyond the end. -/
theorem C16_write_buf_ignores (x : External) (fs : feature_recorder_set) (fuel : Nat)
    (self : feature_recorder) (sbuf : sbuf_t) (pos len : Nat)
    (h : (sbuf.pagesize ≤ pos ∧ pos < sbuf.bufsize) ∨ sbuf.bufsize ≤ pos) :
    write_buf_args self sbuf pos len
      = write_buf_step.ignored (if pos < sbuf.bufsize then 0 else 1) ∧
    write_buf x fs fuel self sbuf pos len
      = some (Outcome.returned [] (if pos < sbuf.bufsize then 0 else 1)) := by
  have hargs : write_buf_args self sbuf pos len
      = write_buf_step.ignored (if pos < sbuf.bufsize then 0 else 1) := by
    unfold write_buf_args
    rcases h with ⟨h1, h2⟩ | h1
    · have hc : pos ≥ sbuf.pagesize ∧ pos < sbuf.bufsize := ⟨h1, h2⟩
      simp [hc, h2]
    · have hc : ¬ (pos ≥ sbuf.pagesize ∧ pos < sbuf.bufsize) := by omega
      have hc2 : pos ≥ sbuf.bufsize := h1
      have hc3 : ¬ pos < sbuf.bufsize := by omega
      rw [if_neg hc, if_pos hc2, if_neg hc3]
  refine ⟨hargs, ?_⟩
  unfold write_buf
  rw [hargs]

theorem C16_write_buf_ignores_witness :
    (write_buf_args windowRecorder pageBuf 17 3 = write_buf_step.ignored 0 ∧
     write_buf plainExternal defaultSet 0 windowRecorder pageBuf 17 3
       = some (Outcome.returned [] 0)) ∧
    (write_buf_args windowRecorder pageBuf 20 3 = write_buf_step.ignored 1 ∧
     write_buf plainExternal defaultSet 0 windowRecorder pageBuf 20 3
       = some (Outcome.returned [] 1)) :=
  ⟨C16_write_buf_ignores plainExternal defaultSet 0 windowRecorder pageBuf 17 3
     (Or.inl (by decide)),
   C16_write_buf_ignores plainExternal defaultSet 0 windowRecorder pageBuf 20 3
     (Or.inr (by decide))⟩

/-- C17, the code at the failing input: for the 20-byte buffer with its margin at byte 16,
a context window of 4, `pos` 10 and `len` `2^64 - 9`, the sum `pos+len` wraps to 1, so
`len` is not clamped, `p1` is 5 and `p0` is 6: the `assert(p0<=p1)` fails and `write` is
not called, although `pos` is below `pagesize` and `bufsize`. -/
theorem C17_write_buf_assert_fails :
    10 < pageBuf.pagesize ∧ 10 < pageBuf.bufsize ∧
    (18446744073709551607 : Nat) < U64 ∧
    (10 + 18446744073709551607) % U64 = 1 ∧
    write_buf_args windowRecorder pageBuf 10 18446744073709551607
      = write_buf_step.assert_failed ∧
    write_buf plainExternal defaultSet 0 windowRecorder pageBuf 10 18446744073709551607
      = some (Outcome.abort 0) := by
  decide

/-- C18, the code at the failing input: for the same buffer and window, `pos` 10 and `len`
`2^64 - 6`, the sum `pos+len` wraps to 4, so `len` is not clamped; the feature passed to
`write` is the bytes `[10, 20)`, and the context is the bytes `[6, 8)`, not the bytes
`[6, 20)` that `p1 = min(pos+len+context_window, bufsize)` with the clamped `len` gives. -/
theorem C18_write_buf_context_wraps :
    windowRecorder.flags.no_context = false ∧
    (18446744073709551610 : Nat) < U64 ∧
    write_buf_args windowRecorder pageBuf 10 18446744073709551610
      = write_buf_step.call (pos0_t.make [] 1010) "abcdefghij".toList "67".toList ∧
    (pageBuf.buf.drop (10 - 4)).take (min (10 + 10 + 4) pageBuf.bufsize - (10 - 4))
      = "6789abcdefghij".toList := by
  decide

/-! ## Lemmas on decimal output and on `carve_data` -/

theorem ite_ne_slash {c : Prop} [Decidable c] {a b : Char} (ha : a ≠ '/') (hb : b ≠ '/') :
    (if c then a else b) ≠ '/' := by
  split <;> assumption

theorem digitChar_ne_slash (n : Nat) : Nat.digitChar n ≠ '/' := by
  unfold Nat.digitChar
  repeat (refine ite_ne_slash (by decide) ?_)
  decide

theorem toDigitsCore_no_slash (fuel : Nat) : ∀ (n : Nat) (ds : Str),
    (∀ c ∈ ds, c ≠ '/') → ∀ c ∈ Nat.toDigitsCore 10 fuel n ds, c ≠ '/' := by
  induction fuel with
  | zero => intro n ds h c hc; exact h c (by simpa [Nat.toDigitsCore] using hc)
  | succ f ih =>
    intro n ds h c hc
    have hd : ∀ x ∈ Nat.digitChar (n % 10) :: ds, x ≠ '/' := by
      intro x hx
      rcases List.mem_cons.mp hx with rfl | hx
      · exact digitChar_ne_slash _
      · exact h x hx
    simp only [Nat.toDigitsCore] at hc
    split at hc
    · exact hd c hc
    · exact ih _ _ hd c hc

theorem toDigitsCore_step (f n : Nat) (ds : Str) :
    Nat.toDigitsCore 10 (f + 1) n ds =
      if n / 10 = 0 then Nat.digitChar (n % 10) :: ds
      else Nat.toDigitsCore 10 f (n / 10) (Nat.digitChar (n % 10) :: ds) := by
  simp [Nat.toDigitsCore]

theorem digitChar_value (m : Nat) (h : m < 10) : (Nat.digitChar m).toNat - 48 = m := by
  interval_cases m <;> rfl

/-- With enough fuel the digits that `Nat.toDigitsCore` puts in front of `ds` read back as
the number. -/
theorem toDigitsCore_value (fuel : Nat) : ∀ (n : Nat) (ds : Str), n < fuel →
    ∃ front : Str, Nat.toDigitsCore 10 fuel n ds = front ++ ds ∧
      ∀ acc : Nat, front.foldl (fun a c => 10 * a + (c.toNat - 48)) acc
        = acc * 10 ^ front.length + n := by
  induction fuel with
  | zero => intro n ds h; omega
  | succ f ih =>
    intro n ds h
    rw [toDigitsCore_step]
    by_cases h0 : n / 10 = 0
    · refine ⟨[Nat.digitChar (n % 10)], by simp [h0], ?_⟩
      intro acc
      have hn : n % 10 = n := by omega
      simp only [List.foldl, List.length_singleton, pow_one]
      rw [digitChar_value _ (Nat.mod_lt _ (by decide)), hn]
      omega
    · obtain ⟨front, hfront, hval⟩ := ih (n / 10) (Nat.digitChar (n % 10) :: ds) (by omega)
      refine ⟨front ++ [Nat.digitChar (n % 10)], by simp [h0, hfront], ?_⟩
      intro acc
      rw [List.foldl_append, hval acc]
      simp only [List.foldl, List.length_append, List.length_singleton, pow_succ]
      rw [digitChar_value _ (Nat.mod_lt _ (by decide))]
      have := Nat.div_add_mod n 10
      ring_nf
      omega

theorem digitsValue_toDigits (n : Nat) : digitsValue (Nat.toDigits 10 n) = n := by
  obtain ⟨front, hfront, hval⟩ := toDigitsCore_value (n + 1) n [] (by omega)
  unfold digitsValue Nat.toDigits
  rw [hfront, List.append_nil, hval 0]
  simp

theorem digitsValue_pad_zero (m : Nat) (s : Str) :
    digitsValue (List.replicate m '0' ++ s) = digitsValue s := by
  unfold digitsValue
  rw [List.foldl_append]
  congr 1
  induction m with
  | zero => rfl
  | succ k ih => simpa [List.replicate_succ] using ih

theorem digitsValue_pad_left (n : Nat) :
    digitsValue (pad_left 3 '0' (Nat.toDigits 10 n)) = n := by
  unfold pad_left
  rw [digitsValue_pad_zero, digitsValue_toDigits]

theorem carve_seq_eq (n : Nat) (h : n < 2147483648000) :
    carve_seq n = pad_left 3 '0' (Nat.toDigits 10 (n / 1000)) := by
  have h1 : to_i64 (n : Int) = (n : Int) := by
    unfold to_i64 U64
    push_cast
    omega
  have h2 : Int.tdiv (n : Int) 1000 = ((n / 1000 : Nat) : Int) := by
    rw [Int.tdiv_eq_ediv (by omega) (by decide)]
    push_cast
    rfl
  have h3 : to_i32 ((n / 1000 : Nat) : Int) = ((n / 1000 : Nat) : Int) := by
    unfold to_i32 U32
    push_cast
    omega
  have h4 : i64_to_string ((n / 1000 : Nat) : Int) = Nat.toDigits 10 (n / 1000) := by
    unfold i64_to_string
    have : ¬ ((n / 1000 : Nat) : Int) < 0 := by omega
    rw [if_neg this, Int.natAbs_ofNat]
  unfold carve_seq
  rw [h1, h2, h3, h4]

theorem pad3_toDigits (d : Nat) (h : d < 1000) :
    pad_left 3 '0' (Nat.toDigits 10 d)
      = [Nat.digitChar (d / 100), Nat.digitChar (d / 10 % 10), Nat.digitChar (d % 10)] := by
  unfold pad_left Nat.toDigits
  rw [toDigitsCore_step]
  by_cases h1 : d / 10 = 0
  · have e1 : d / 100 = 0 := by omega
    have e2 : d / 10 % 10 = 0 := by omega
    simp [h1, e1, e2]
    rfl
  · obtain ⟨f, rfl⟩ : ∃ f, d = f + 1 := ⟨d - 1, by omega⟩
    rw [if_neg h1, toDigitsCore_step]
    by_cases h2 : (f + 1) / 10 / 10 = 0
    · have e1 : (f + 1) / 100 = 0 := by omega
      simp [h2, e1]
      rfl
    · obtain ⟨g, rfl⟩ : ∃ g, f = g + 1 := ⟨f - 1, by omega⟩
      rw [if_neg h2, toDigitsCore_step]
      have h3 : (g + 1 + 1) / 10 / 10 / 10 = 0 := by omega
      have e1 : (g + 1 + 1) / 10 / 10 % 10 = (g + 1 + 1) / 100 := by omega
      simp [h3, e1]

theorem carve_seq_no_slash (n : Nat) (h : n < 2147483648000) : ∀ c ∈ carve_seq n, c ≠ '/' := by
  rw [carve_seq_eq n h]
  unfold pad_left
  intro c hc
  rcases List.mem_append.mp hc with hc | hc
  · rw [List.eq_of_mem_replicate hc]; decide
  · exact toDigitsCore_no_slash _ _ _ (by simp) c hc

theorem carve_seq_value (n : Nat) (h : n < 2147483648000) :
    digitsValue (carve_seq n) = n / 1000 := by
  rw [carve_seq_eq n h, digitsValue_pad_left]

/-- The names that a run of `carve_data` calls returns, call by call. -/
theorem carve_all_fst (fs : feature_recorder_set) (calls : List (sbuf_t × Str)) :
    ∀ self : feature_recorder,
      (carve_all fs self calls).1 =
        (List.enumFrom self.carved_files calls).map (fun p =>
          fs.outdir ++ ['/'] ++ self.name ++ ['/'] ++ carve_seq p.1 ++ ['/']
            ++ p.2.1.pos0.str ++ ['.'] ++ p.2.2) := by
  induction calls with
  | nil => intro self; rfl
  | cons c rest ih =>
    intro self
    obtain ⟨sbuf, ext⟩ := c
    simp only [carve_all, List.enumFrom_cons, List.map_cons]
    rw [ih]
    rfl

theorem carve_all_snd (fs : feature_recorder_set) (calls : List (sbuf_t × Str)) :
    ∀ self : feature_recorder,
      (carve_all fs self calls).2
        = { self with carved_files := self.carved_files + calls.length } := by
  induction calls with
  | nil => intro self; rfl
  | cons c rest ih =>
    intro self
    obtain ⟨sbuf, ext⟩ := c
    simp only [carve_all]
    rw [ih]
    simp only [carve_data, List.length_cons]
    congr 1
    omega

theorem carve_all_getElem (fs : feature_recorder_set) (calls : List (sbuf_t × Str))
    (self : feature_recorder) (k : Nat) (sbuf : sbuf_t) (ext : Str)
    (hk : calls[k]? = some (sbuf, ext)) :
    (carve_all fs self calls).1[k]?
      = some (fs.outdir ++ ['/'] ++ self.name ++ ['/'] ++ carve_seq (self.carved_files + k)
          ++ ['/'] ++ sbuf.pos0.str ++ ['.'] ++ ext) := by
  rw [carve_all_fst, List.getElem?_map, List.getElem?_enumFrom, hk]
  rfl

theorem shard_of_name (fs : feature_recorder_set) (self : feature_recorder)
    (seq r1 r2 : Str) (h : ∀ c ∈ seq, c ≠ '/') :
    shard_of fs self
      (fs.outdir ++ ['/'] ++ self.name ++ ['/'] ++ seq ++ ['/'] ++ r1 ++ ['.'] ++ r2) = seq := by
  unfold shard_of
  have e : fs.outdir ++ ['/'] ++ self.name ++ ['/'] ++ seq ++ ['/'] ++ r1 ++ ['.'] ++ r2
      = (fs.outdir ++ ['/'] ++ self.name ++ ['/']) ++ (seq ++ '/' :: (r1 ++ ['.'] ++ r2)) := by
    simp
  rw [e, List.drop_left' (by simp; omega)]
  clear e
  generalize r1 ++ ['.'] ++ r2 = rest
  induction seq with
  | nil => simp [List.takeWhile]
  | cons a as ih =>
    have ha : a ≠ '/' := h a (List.mem_cons_self _ _)
    have has : ∀ c ∈ as, c ≠ '/' := fun c hc => h c (List.mem_cons_of_mem _ hc)
    simp only [List.cons_append, List.takeWhile_cons, ha, ne_eq, not_false_eq_true,
      decide_True, if_true]
    rw [ih has]

theorem toDigitsCore_length_ge (fuel : Nat) : ∀ (n : Nat) (ds : Str),
    ds.length ≤ (Nat.toDigitsCore 10 fuel n ds).length := by
  induction fuel with
  | zero => intro n ds; simp [Nat.toDigitsCore]
  | succ f ih =>
    intro n ds
    rw [toDigitsCore_step]
    split
    · simp
    · exact Nat.le_trans (by simp) (ih _ _)

theorem pad3_of_large (d : Nat) (h : 100 ≤ d) :
    pad_left 3 '0' (Nat.toDigits 10 d) = Nat.toDigits 10 d := by
  have hlen : 3 ≤ (Nat.toDigits 10 d).length := by
    unfold Nat.toDigits
    obtain ⟨f, rfl⟩ : ∃ f, d = f + 2 := ⟨d - 2, by omega⟩
    have h1 : ¬ (f + 2) / 10 = 0 := by omega
    have h2 : ¬ (f + 2) / 10 / 10 = 0 := by omega
    rw [toDigitsCore_step, if_neg h1, toDigitsCore_step, if_neg h2, toDigitsCore_step]
    split
    · simp
    · exact Nat.le_trans (by simp) (toDigitsCore_length_ge _ _ _)
  unfold pad_left
  have : 3 - (Nat.toDigits 10 d).length = 0 := by omega
  rw [this]
  rfl

/-- The shard directories of the names that a run of `carve_data` calls returns. -/
theorem carve_all_shards (fs : feature_recorder_set) (self : feature_recorder)
    (calls : List (sbuf_t × Str))
    (hN : self.carved_files + calls.length ≤ 2147483648000) :
    (carve_all fs self calls).1.map (shard_of fs self)
      = (List.range' self.carved_files calls.length).map carve_seq := by
  rw [carve_all_fst, List.map_map, ← List.enumFrom_map_fst self.carved_files calls,
    List.map_map]
  apply List.map_congr_left
  intro p hp
  have hlt := List.fst_lt_add_of_mem_enumFrom hp
  rw [Function.comp_apply, Function.comp_apply]
  exact shard_of_name fs self _ _ _ (carve_seq_no_slash _ (by omega))

theorem countP_div_range (j c n : Nat) :
    (List.range' c n).countP (fun k => decide (k / 1000 = j)) ≤ 1000 := by
  rw [List.countP_eq_length_filter]
  have hnd : ((List.range' c n).filter (fun k => decide (k / 1000 = j))).Nodup :=
    (List.nodup_range' c n).filter _
  rw [← List.toFinset_card_of_nodup hnd]
  calc ((List.range' c n).filter (fun k => decide (k / 1000 = j))).toFinset.card
      ≤ (Finset.Ico (1000 * j) (1000 * j + 1000)).card := by
        apply Finset.card_le_card
        intro k hk
        simp only [List.mem_toFinset, List.mem_filter, decide_eq_true_eq] at hk
        simp only [Finset.mem_Ico]
        omega
    _ = 1000 := by simp

/-! ## Claims on `carve_data` -/

/-- C19: the call number 1000000 (counted from 0) of a fresh recorder returns
`out/email/1000/1000.jpg`: its shard directory `1000` has four digits, not three, while the
comment above `carve_data` has the directory run from `000` through `999`. -/
theorem C19_shard_four_digits :
    emailRecorder.carved_files = 0 ∧
    (carve_all carveSet emailRecorder
        (List.replicate 1000001 (pageBuf, "jpg".toList))).1[1000000]?
      = some "out/email/1000/1000.jpg".toList ∧
    "1000".toList.length ≠ 3 := by
  refine ⟨rfl, ?_, by decide⟩
  rw [carve_all_getElem carveSet _ emailRecorder 1000000 pageBuf "jpg".toList
    (List.getElem?_replicate_of_lt (by decide))]
  decide

/-- The name that the `k`-th `carve_data` call on a fresh recorder returns (`k` counted
from 0, below `2^31 * 1000`): `outdir/name/shard/pos0.ext` with the string form of
`sbuf.pos0`, where the shard is `k/1000` in decimal, exactly three zero-padded digits while
`k` is below 1000000. -/
theorem carve_path_of_call (fs : feature_recorder_set) (self : feature_recorder)
    (calls : List (sbuf_t × Str)) (k : Nat) (sbuf : sbuf_t) (ext : Str)
    (h0 : self.carved_files = 0) (hk : calls[k]? = some (sbuf, ext))
    (hm : k < 2147483648000) :
    (carve_all fs self calls).1[k]?
      = some (fs.outdir ++ ['/'] ++ self.name ++ ['/']
          ++ (if k < 1000000 then
                [Nat.digitChar (k / 1000 / 100), Nat.digitChar (k / 1000 / 10 % 10),
                 Nat.digitChar (k / 1000 % 10)]
              else u64_to_string (k / 1000))
          ++ ['/'] ++ sbuf.pos0.str ++ ['.'] ++ ext) := by
  rw [carve_all_getElem fs calls self k sbuf ext hk, h0, Nat.zero_add, carve_seq_eq k hm]
  by_cases hlt : k < 1000000
  · rw [if_pos hlt, pad3_toDigits (k / 1000) (by omega)]
  · rw [if_neg hlt, pad3_of_large (k / 1000) (by omega)]
    rfl

theorem carve_path_of_call_example :
    (carve_all carveSet emailRecorder
        [(pageBuf, "jpg".toList), (pageBuf, "zip".toList)]).1[1]?
      = some "out/email/000/1000.zip".toList :=
  carve_path_of_call carveSet emailRecorder [(pageBuf, "jpg".toList), (pageBuf, "zip".toList)] 1
    pageBuf "zip".toList rfl rfl (by decide)

theorem carve_seq_small (k : Nat) (h : k < 2500) :
    carve_seq k = "000".toList ∨ carve_seq k = "001".toList ∨ carve_seq k = "002".toList := by
  rw [carve_seq_eq k (by omega)]
  have hj : k / 1000 = 0 ∨ k / 1000 = 1 ∨ k / 1000 = 2 := by omega
  rcases hj with e | e | e
  · left; rw [e]; decide
  · right; left; rw [e]; decide
  · right; right; rw [e]; decide

/-- C20, as stated, fails: the call number 2147483648000 (counted from 0) of a fresh
recorder does not go to the shard `2147483648 = floor(k/1000)`: the shard number passes
through an `int`, and the name returned lies in the directory `-2147483648` of
`out/email`. -/
theorem C20_shard_number_wraps :
    emailRecorder.carved_files = 0 ∧
    2147483648000 / 1000 = 2147483648 ∧
    (carve_all carveSet emailRecorder
        (List.replicate 2147483648001 (pageBuf, "jpg".toList))).1[2147483648000]?
      = some "out/email/-2147483648/1000.jpg".toList := by
  refine ⟨rfl, by decide, ?_⟩
  rw [carve_all_getElem carveSet _ emailRecorder 2147483648000 pageBuf "jpg".toList
    (List.getElem?_replicate_of_lt (by decide))]
  decide

/-- C20, amended: every `carve_data` call advances `carved_files` by exactly one, so after
`N` calls on a fresh recorder the counter is `N`; and for `N` up to `2^31 * 1000` the call
`k` goes to the shard directory that is `k/1000` in decimal, zero-padded to three digits,
no shard directory receives more than 1000 carves, and 2500 carves use exactly the three
shards `000`, `001` and `002`. -/
theorem C20_carve_shards (fs : feature_recorder_set) (self : feature_recorder)
    (calls : List (sbuf_t × Str)) (h0 : self.carved_files = 0)
    (hN : calls.length ≤ 2147483648000) :
    (∀ (r : feature_recorder) (sbuf : sbuf_t) (ext : Str),
      (carve_data fs r sbuf ext).recorder.carved_files = r.carved_files + 1) ∧
    (carve_all fs self calls).2.carved_files = calls.length ∧
    (∀ (k : Nat) (name : Str), (carve_all fs self calls).1[k]? = some name →
      shard_of fs self name = pad_left 3 '0' (u64_to_string (k / 1000)) ∧
      digitsValue (shard_of fs self name) = k / 1000) ∧
    (∀ s : Str, ((carve_all fs self calls).1.filter
      (fun name => decide (shard_of fs self name = s))).length ≤ 1000) ∧
    (calls.length = 2500 →
      ∀ s : Str, s ∈ (carve_all fs self calls).1.map (shard_of fs self) ↔
        (s = "000".toList ∨ s = "001".toList ∨ s = "002".toList)) := by
  have hsh := carve_all_shards fs self calls (by omega)
  rw [h0] at hsh
  refine ⟨fun r sbuf ext => rfl, ?_, ?_, ?_, ?_⟩
  · rw [carve_all_snd, h0, Nat.zero_add]
  · intro k name hk
    have h1 : ((carve_all fs self calls).1.map (shard_of fs self))[k]?
        = some (shard_of fs self name) := by
      rw [List.getElem?_map, hk]
      rfl
    rw [hsh, List.getElem?_map] at h1
    have hlt : k < calls.length := by
      by_contra hge
      rw [List.getElem?_eq_none (by rw [List.length_range']; omega)] at h1
      exact absurd h1 (by simp)
    rw [List.getElem?_range' _ _ hlt] at h1
    have h2 : carve_seq (0 + 1 * k) = shard_of fs self name := by
      simpa using h1
    have h3 : carve_seq k = shard_of fs self name := by
      have e : 0 + 1 * k = k := by omega
      rw [e] at h2
      exact h2
    rw [← h3]
    exact ⟨carve_seq_eq k (by omega), carve_seq_value k (by omega)⟩
  · intro s
    rw [← List.countP_eq_length_filter,
      show (carve_all fs self calls).1.countP (fun name => decide (shard_of fs self name = s))
        = ((carve_all fs self calls).1.map (shard_of fs self)).countP
            (fun t => decide (t = s)) from by rw [List.countP_map]; rfl,
      hsh, List.countP_map]
    refine Nat.le_trans (List.countP_mono_left ?_) (countP_div_range (digitsValue s) 0 _)
    intro k hk hks
    rw [List.mem_range'_1] at hk
    have hks2 : carve_seq k = s := by
      have := hks
      rw [Function.comp_apply, decide_eq_true_eq] at this
      exact this
    rw [decide_eq_true_eq, ← hks2]
    exact (carve_seq_value k (by omega)).symm
  · intro h2500 s
    rw [hsh, h2500, List.mem_map]
    constructor
    · rintro ⟨k, hk, rfl⟩
      rw [List.mem_range'_1] at hk
      exact carve_seq_small k (by omega)
    · rintro (rfl | rfl | rfl)
      · exact ⟨0, by rw [List.mem_range'_1]; omega, by decide⟩
      · exact ⟨1000, by rw [List.mem_range'_1]; omega, by decide⟩
      · exact ⟨2000, by rw [List.mem_range'_1]; omega, by decide⟩

theorem C20_carve_shards_witness :
    (carve_all carveSet emailRecorder
        (List.replicate 2500 (pageBuf, "jpg".toList))).2.carved_files = 2500 ∧
    (∀ s : Str, s ∈ (carve_all carveSet emailRecorder
          (List.replicate 2500 (pageBuf, "jpg".toList))).1.map
            (shard_of carveSet emailRecorder) ↔
        (s = "000".toList ∨ s = "001".toList ∨ s = "002".toList)) :=
  have h := C20_carve_shards carveSet emailRecorder
    (List.replicate 2500 (pageBuf, "jpg".toList)) rfl
    (by rw [List.length_replicate]; decide)
  ⟨by rw [h.2.1, List.length_replicate], h.2.2.2.2 (List.length_replicate _ _)⟩

/-- C21, as stated, fails: two `carve_data` calls on one recorder for the same buffer and
extension return the same name, `out/email/000/1000.jpg`. -/
theorem C21_same_path_twice :
    (carve_all carveSet emailRecorder
        [(pageBuf, "jpg".toList), (pageBuf, "jpg".toList)]).1
      = ["out/email/000/1000.jpg".toList, "out/email/000/1000.jpg".toList] := by
  decide

/-- The name that the call number `k` of a fresh recorder returns, with its shard text. -/
theorem carve_name_spec (fs : feature_recorder_set) (self : feature_recorder)
    (calls : List (sbuf_t × Str)) (k : Nat) (sbuf : sbuf_t) (ext : Str)
    (h0 : self.carved_files = 0) (hk : calls[k]? = some (sbuf, ext))
    (hb : k < 2147483648000) :
    ∃ q : Str,
      (carve_all fs self calls).1[k]?
        = some (fs.outdir ++ ['/'] ++ self.name ++ ['/'] ++ q ++ ['/']
            ++ sbuf.pos0.str ++ ['.'] ++ ext) ∧
      (∀ c ∈ q, c ≠ '/') ∧ digitsValue q = k / 1000 ∧
      q = pad_left 3 '0' (Nat.toDigits 10 (k / 1000)) := by
  refine ⟨carve_seq k, ?_, carve_seq_no_slash k hb, carve_seq_value k hb, carve_seq_eq k hb⟩
  rw [carve_all_getElem fs calls self k sbuf ext hk, h0, Nat.zero_add]

/-- C21, amended: two `carve_data` calls of a fresh recorder (both among its first
`2^31 * 1000` calls) return the same name exactly when they fall in the same shard and the
text `sbuf.pos0.str() + "." + ext` is the same for both; calls in different shards, or with
different such texts, never collide. -/
theorem C21_same_path_iff (fs : feature_recorder_set) (self : feature_recorder)
    (calls : List (sbuf_t × Str)) (i j : Nat) (sbuf1 sbuf2 : sbuf_t) (ext1 ext2 : Str)
    (h0 : self.carved_files = 0)
    (hi : calls[i]? = some (sbuf1, ext1)) (hj : calls[j]? = some (sbuf2, ext2))
    (hbi : i < 2147483648000) (hbj : j < 2147483648000) :
    (carve_all fs self calls).1[i]? = (carve_all fs self calls).1[j]? ↔
      (i / 1000 = j / 1000 ∧
        sbuf1.pos0.str ++ ['.'] ++ ext1 = sbuf2.pos0.str ++ ['.'] ++ ext2) := by
  obtain ⟨qi, hni, hsi, hvi, hei⟩ := carve_name_spec fs self calls i sbuf1 ext1 h0 hi hbi
  obtain ⟨qj, hnj, hsj, hvj, hej⟩ := carve_name_spec fs self calls j sbuf2 ext2 h0 hj hbj
  rw [hni, hnj]
  constructor
  · intro h
    have h1 := Option.some.inj h
    have h2 := congrArg (shard_of fs self) h1
    rw [shard_of_name fs self qi _ _ hsi, shard_of_name fs self qj _ _ hsj] at h2
    subst h2
    refine ⟨by rw [← hvi, ← hvj], ?_⟩
    have h3 : (fs.outdir ++ ['/'] ++ self.name ++ ['/'] ++ qi ++ ['/'])
          ++ (sbuf1.pos0.str ++ ['.'] ++ ext1)
        = (fs.outdir ++ ['/'] ++ self.name ++ ['/'] ++ qi ++ ['/'])
          ++ (sbuf2.pos0.str ++ ['.'] ++ ext2) := by
      simpa [List.append_assoc] using h1
    exact List.append_cancel_left h3
  · rintro ⟨hdiv, htext⟩
    have hq : qi = qj := by rw [hei, hej, hdiv]
    subst hq
    have h3 : (fs.outdir ++ ['/'] ++ self.name ++ ['/'] ++ qi ++ ['/'])
          ++ (sbuf1.pos0.str ++ ['.'] ++ ext1)
        = (fs.outdir ++ ['/'] ++ self.name ++ ['/'] ++ qi ++ ['/'])
          ++ (sbuf2.pos0.str ++ ['.'] ++ ext2) := by
      rw [htext]
    congr 1
    simpa [List.append_assoc] using h3

theorem C21_same_path_iff_witness :
    ((carve_all carveSet emailRecorder
          [(pageBuf, "jpg".toList), (pageBuf, "zip".toList)]).1[0]?
        = (carve_all carveSet emailRecorder
          [(pageBuf, "jpg".toList), (pageBuf, "zip".toList)]).1[1]? ↔
      (0 / 1000 = 1 / 1000 ∧
        pageBuf.pos0.str ++ ['.'] ++ "jpg".toList
          = pageBuf.pos0.str ++ ['.'] ++ "zip".toList)) ∧
    (carve_all carveSet emailRecorder
          [(pageBuf, "jpg".toList), (pageBuf, "zip".toList)]).1[0]?
      ≠ (carve_all carveSet emailRecorder
          [(pageBuf, "jpg".toList), (pageBuf, "zip".toList)]).1[1]? :=
  ⟨C21_same_path_iff carveSet emailRecorder
      [(pageBuf, "jpg".toList), (pageBuf, "zip".toList)] 0 1 pageBuf pageBuf
      "jpg".toList "zip".toList rfl rfl rfl (by decide) (by decide),
   by decide⟩

/-! ## Claims on `extract_feature` -/

theorem find_of_not_mem (a : Str) (c : Char) (h : c ∉ a) : find a c = none := by
  induction a with
  | nil => rfl
  | cons x xs ih =>
    have hx : x ≠ c := fun e => h (e ▸ List.mem_cons_self _ _)
    have hxs : c ∉ xs := fun m => h (List.mem_cons_of_mem _ m)
    simp [find, hx, ih hxs]

theorem find_append_of_not_mem (a b : Str) (c : Char) (h : c ∉ a) :
    find (a ++ c :: b) c = some a.length := by
  induction a with
  | nil => simp [find]
  | cons x xs ih =>
    have hx : x ≠ c := fun e => h (e ▸ List.mem_cons_self _ _)
    have hxs : c ∉ xs := fun m => h (List.mem_cons_of_mem _ m)
    simp [find, hx, ih hxs]

/-- C22: when the forensic-path string and the feature hold no tab, `extract_feature`
returns the feature from the line `path TAB feature TAB context`, for every context, and
from the line `path TAB feature`. -/
theorem C22_extract_feature_of_line (path feature context : Str)
    (hp : '\t' ∉ path) (hf : '\t' ∉ feature) :
    extract_feature (path ++ ['\t'] ++ feature ++ ['\t'] ++ context) = feature ∧
    extract_feature (path ++ ['\t'] ++ feature) = feature := by
  have e1 : path ++ ['\t'] ++ feature ++ ['\t'] ++ context
      = path ++ '\t' :: (feature ++ '\t' :: context) := by simp
  have e2 : path ++ ['\t'] ++ feature = path ++ '\t' :: feature := by simp
  constructor
  · rw [e1]
    unfold extract_feature
    rw [find_append_of_not_mem path _ '\t' hp]
    have hd : List.drop (path.length + 1) (path ++ '\t' :: (feature ++ '\t' :: context))
        = feature ++ '\t' :: context := by
      rw [show path ++ '\t' :: (feature ++ '\t' :: context)
          = (path ++ ['\t']) ++ (feature ++ '\t' :: context) from by simp]
      exact List.drop_left' (by simp)
    simp only [find_from, hd, find_append_of_not_mem feature _ '\t' hf, Option.map_some',
      substr]
    simp
  · rw [e2]
    unfold extract_feature
    rw [find_append_of_not_mem path _ '\t' hp]
    have hd : List.drop (path.length + 1) (path ++ '\t' :: feature) = feature := by
      rw [show path ++ '\t' :: feature = (path ++ ['\t']) ++ feature from by simp]
      exact List.drop_left' (by simp)
    simp only [find_from, hd, find_of_not_mem feature '\t' hf, Option.map_none', substrFrom]

theorem C22_extract_feature_of_line_witness :
    extract_feature ("1000-GZIP-30".toList ++ ['\t'] ++ "user@example.com".toList
        ++ ['\t'] ++ "mail\tuser@example.com now".toList) = "user@example.com".toList ∧
    extract_feature ("1000-GZIP-30".toList ++ ['\t'] ++ "user@example.com".toList)
      = "user@example.com".toList :=
  C22_extract_feature_of_line "1000-GZIP-30".toList "user@example.com".toList
    "mail\tuser@example.com now".toList (by decide) (by decide)

/-- C29, the code at the failing input: for the line `1000 TAB abc NEWLINE`
`extract_feature` returns `abc NEWLINE`, the newline included, because it looks for the
next tab only; the text between the first tab and the newline is `abc`. For a line
without a tab it returns the empty string. -/
theorem C29_newline_is_kept :
    extract_feature "1000\tabc\n".toList = "abc\n".toList ∧
    extract_feature "1000\tabc\n".toList ≠ "abc".toList ∧
    extract_feature "1000\tabc\nnext\tdef".toList = "abc\nnext".toList ∧
    extract_feature "1000".toList = [] := by
  decide

/-! ## Claims on the forensic path, continued -/

/-- C26, the code at the failing input: for the decoder path `1000-GZIP-300`, and for the
path that `+ GZIP` and `+ 123` build from offset 1000, `alphaPart` returns `GZIP/` with a
trailing slash: the slash is added at the dash that follows `GZIP`, and no tag follows. -/
theorem C26_trailing_slash :
    (pos0_t.make "1000-GZIP-300".toList 0).alphaPart = "GZIP/".toList ∧
    (((pos0_t.make [] 1000).addSubdir "GZIP".toList).addSubdir "123".toList).path
      = "1000-GZIP-0-123".toList ∧
    (((pos0_t.make [] 1000).addSubdir "GZIP".toList).addSubdir "123".toList).alphaPart
      = "GZIP/".toList ∧
    "GZIP/".toList.getLast? = some '/' := by
  decide

/-- C27: for every forensic path `p` and every decoder tag `t`, the string form of `p + t`
is the string form of `p`, a dash, the tag, and `-0`. -/
theorem C27_child_str (p : pos0_t) (t : Str) :
    (p.addSubdir t).str = p.str ++ "-".toList ++ t ++ "-0".toList := by
  have h0 : u64_to_string 0 = ['0'] := by decide
  have hlen : (p.path ++ (if p.path.length > 0 then ['-'] else []) ++ u64_to_string p.offset
      ++ ['-'] ++ t).length > 0 := by
    simp only [List.length_append, List.length_singleton]
    omega
  unfold pos0_t.addSubdir pos0_t.str pos0_t.make
  simp only [hlen, if_true, h0]
  by_cases hp : p.path.length > 0
  · simp [hp]
  · have hnil : p.path = [] := List.length_eq_zero.mp (by omega)
    simp [hnil]

/-! ## Claims on the stop-list recorder -/

theorem write_body_loopSet (reroute : feature_recorder → pos0_t → Str → Str → Option Outcome)
    (self : feature_recorder) (hs : self.flags = {}) (pos0 : pos0_t) :
    write_body plainExternal loopSet reroute self pos0 "abc".toList "ctx".toList
      = reroute { name := "email_stopped".toList } pos0 "abc".toList "ctx".toList := by
  unfold write_body
  simp [loopSet, plainExternal, quote_if_necessary, sanitize, stop_list_target, hs]

theorem write_loopSet_none (fuel : Nat) : ∀ (self : feature_recorder) (_ : self.flags = {})
    (pos0 : pos0_t),
    write plainExternal loopSet fuel self pos0 "abc".toList "ctx".toList = none := by
  induction fuel with
  | zero =>
    intro self hs pos0
    show write_body plainExternal loopSet _ self pos0 _ _ = none
    rw [write_body_loopSet _ self hs]
  | succ k ih =>
    intro self hs pos0
    show write_body plainExternal loopSet (write plainExternal loopSet k) self pos0 _ _ = none
    rw [write_body_loopSet _ self hs]
    exact ih _ rfl pos0

/-- C28, the code at the failing input: with a stop list that matches the feature and a
stop-list recorder whose `no_stoplist` flag is unset, a write addressed to the stop-list
recorder consults the stop list and is rerouted to the stop-list recorder again; neither it
nor a write of another recorder returns within any number of nested calls. -/
theorem C28_stop_list_recorder_loops (fuel : Nat) :
    loopSet.stop_list_recorder = some { name := "email_stopped".toList } ∧
    stop_list_target loopSet { name := "email_stopped".toList } "abc".toList "ctx".toList
      = some { name := "email_stopped".toList } ∧
    write plainExternal loopSet fuel { name := "email_stopped".toList } (pos0_t.make [] 100)
      "abc".toList "ctx".toList = none ∧
    write plainExternal loopSet fuel emailRecorder (pos0_t.make [] 100)
      "abc".toList "ctx".toList = none :=
  ⟨rfl, by decide, write_loopSet_none fuel _ rfl _, write_loopSet_none fuel _ rfl _⟩

/-! ## Claims on the dedup set and on the recursion ceiling -/

theorem check_hasher (fs : feature_recorder_set) (sbuf : sbuf_t) :
    (check_previously_processed fs sbuf).2.hasher = fs.hasher := by
  unfold check_previously_processed
  by_cases h : fs.hasher sbuf.buf ∈ fs.seen_set <;> simp [h]

theorem check_answer (fs : feature_recorder_set) (sbuf : sbuf_t) :
    (check_previously_processed fs sbuf).1 = decide (fs.hasher sbuf.buf ∈ fs.seen_set) := by
  unfold check_previously_processed
  by_cases h : fs.hasher sbuf.buf ∈ fs.seen_set <;> simp [h]

theorem check_seen (fs : feature_recorder_set) (sbuf : sbuf_t) (d : Str) :
    d ∈ (check_previously_processed fs sbuf).2.seen_set ↔
      (d ∈ fs.seen_set ∨ d = fs.hasher sbuf.buf) := by
  unfold check_previously_processed
  by_cases h : fs.hasher sbuf.buf ∈ fs.seen_set
  · simp only [h, if_true]
    constructor
    · intro hd; exact Or.inl hd
    · rintro (hd | hd)
      · exact hd
      · rw [hd]; exact h
  · simp only [h, if_false, List.mem_cons]
    constructor
    · rintro (hd | hd)
      · exact Or.inr hd
      · exact Or.inl hd
    · rintro (hd | hd)
      · exact Or.inr hd
      · exact Or.inl hd

theorem check_all_grows (calls : List (Nat × sbuf_t)) :
    ∀ (fs : feature_recorder_set) (d : Str), d ∈ fs.seen_set →
      d ∈ (check_all fs calls).2.seen_set := by
  induction calls with
  | nil => intro fs d hd; exact hd
  | cons c rest ih =>
    intro fs d hd
    obtain ⟨t, sbuf⟩ := c
    simp only [check_all]
    exact ih _ d ((check_seen fs sbuf d).mpr (Or.inl hd))

theorem check_all_answer (calls : List (Nat × sbuf_t)) :
    ∀ (fs : feature_recorder_set) (i t : Nat) (sbuf : sbuf_t),
      calls[i]? = some (t, sbuf) →
      ∃ b : Bool, (check_all fs calls).1[i]? = some b ∧
        (b = true ↔ (fs.hasher sbuf.buf ∈ fs.seen_set ∨
          ∃ (j t2 : Nat) (sbuf2 : sbuf_t), j < i ∧ calls[j]? = some (t2, sbuf2) ∧
            fs.hasher sbuf2.buf = fs.hasher sbuf.buf)) := by
  induction calls with
  | nil => intro fs i t sbuf h; simp at h
  | cons c rest ih =>
    intro fs i t sbuf h
    obtain ⟨t0, s0⟩ := c
    cases i with
    | zero =>
      have hc : (t0, s0) = (t, sbuf) := by simpa using h
      obtain ⟨rfl, rfl⟩ := Prod.mk.inj hc
      refine ⟨(check_previously_processed fs s0).1, by simp [check_all], ?_⟩
      rw [check_answer, decide_eq_true_eq]
      constructor
      · intro hm; exact Or.inl hm
      · rintro (hm | ⟨j, _, _, hj, _⟩)
        · exact hm
        · omega
    | succ n =>
      have hr : rest[n]? = some (t, sbuf) := by simpa using h
      obtain ⟨b, hb, hiff⟩ := ih (check_previously_processed fs s0).2 n t sbuf hr
      refine ⟨b, by simpa [check_all] using hb, ?_⟩
      rw [hiff, check_hasher, check_seen]
      constructor
      · rintro ((hm | hm) | ⟨j, t2, s2, hj, hcj, he⟩)
        · exact Or.inl hm
        · exact Or.inr ⟨0, t0, s0, by omega, by simp, hm.symm⟩
        · exact Or.inr ⟨j + 1, t2, s2, by omega, by simpa using hcj, he⟩
      · rintro (hm | ⟨j, t2, s2, hj, hcj, he⟩)
        · exact Or.inl (Or.inl hm)
        · cases j with
          | zero =>
            have hc : (t0, s0) = (t2, s2) := by simpa using hcj
            obtain ⟨rfl, rfl⟩ := Prod.mk.inj hc
            exact Or.inl (Or.inr he.symm)
          | succ m =>
            exact Or.inr ⟨m, t2, s2, by omega, by simpa using hcj, he⟩

/-- C23: in a run of `check_previously_processed` calls, whatever thread makes each call,
the call on a buffer answers `true` exactly when the digest of the buffer was in the
seen-set before the run or an earlier call of the run had a buffer with the same digest:
on a fresh set the first check of a digest answers `false` and every later one `true`; and
no call removes a digest from the seen-set. -/
theorem C23_dedup_check (fs : feature_recorder_set) (calls : List (Nat × sbuf_t))
    (i t : Nat) (sbuf : sbuf_t) (hi : calls[i]? = some (t, sbuf)) :
    (∃ b : Bool, (check_all fs calls).1[i]? = some b ∧
      (b = true ↔ (fs.hasher sbuf.buf ∈ fs.seen_set ∨
        ∃ (j t2 : Nat) (sbuf2 : sbuf_t), j < i ∧ calls[j]? = some (t2, sbuf2) ∧
          fs.hasher sbuf2.buf = fs.hasher sbuf.buf))) ∧
    (∀ (other : sbuf_t) (d : Str), d ∈ fs.seen_set →
      d ∈ (check_previously_processed fs other).2.seen_set) ∧
    (∀ d : Str, d ∈ fs.seen_set → d ∈ (check_all fs calls).2.seen_set) :=
  ⟨check_all_answer calls fs i t sbuf hi,
   fun other d hd => (check_seen fs other d).mpr (Or.inl hd),
   check_all_grows calls fs⟩

theorem C23_dedup_check_witness :
    (check_all defaultSet [(1, pageBuf), (2, pageBuf), (1, pageBuf)]).1
      = [false, true, true] ∧
    (∃ b : Bool, (check_all defaultSet [(1, pageBuf), (2, pageBuf), (1, pageBuf)]).1[1]?
        = some b ∧
      (b = true ↔ (defaultSet.hasher pageBuf.buf ∈ defaultSet.seen_set ∨
        ∃ (j t2 : Nat) (sbuf2 : sbuf_t), j < 1 ∧
          [(1, pageBuf), (2, pageBuf), (1, pageBuf)][j]? = some (t2, sbuf2) ∧
          defaultSet.hasher sbuf2.buf = defaultSet.hasher pageBuf.buf))) :=
  ⟨by decide,
   (C23_dedup_check defaultSet [(1, pageBuf), (2, pageBuf), (1, pageBuf)] 1 2 pageBuf rfl).1⟩

theorem process_chain_spec (ss : scanner_set) (recorder : Str) (chain : List sbuf_t) :
    ∀ depth : Nat, depth ≤ ss.max_depth → ss.max_depth - depth < chain.length →
      (process_chain ss recorder depth chain).length = ss.max_depth - depth + 1 ∧
      ((process_chain ss recorder depth chain).filter scan_event.is_refused).length = 1 ∧
      (∀ (sbuf : sbuf_t) (d : Nat),
        scan_event.scanned sbuf d ∈ process_chain ss recorder depth chain →
          d < ss.max_depth) ∧
      (∀ r : Record, scan_event.refused r ∈ process_chain ss recorder depth chain →
        r.feature = MAX_DEPTH_REACHED_ERROR_FEATURE ∧
        r.context = MAX_DEPTH_REACHED_ERROR_CONTEXT) := by
  induction chain with
  | nil => intro depth _ h2; simp at h2
  | cons sbuf derived ih =>
    intro depth h1 h2
    by_cases hd : depth ≥ ss.max_depth
    · have he : ss.max_depth - depth = 0 := by omega
      simp only [process_chain, hd, if_true, he]
      refine ⟨rfl, rfl, ?_, ?_⟩
      · intro sb d hm; simp at hm
      · intro r hm
        simp only [List.mem_singleton, scan_event.refused.injEq] at hm
        subst hm
        exact ⟨rfl, rfl⟩
    · have hlen : ss.max_depth - (depth + 1) < derived.length := by
        simp only [List.length_cons] at h2; omega
      obtain ⟨g1, g2, g3, g4⟩ := ih (depth + 1) (by omega) hlen
      simp only [process_chain, hd, if_false]
      refine ⟨?_, ?_, ?_, ?_⟩
      · rw [List.length_cons, g1]; omega
      · rw [List.filter_cons_of_neg (by simp [scan_event.is_refused])]; exact g2
      · intro sb d hm
        rcases List.mem_cons.mp hm with hm | hm
        · have := scan_event.scanned.inj hm
          omega
        · exact g3 sb d hm
      · intro r hm
        rcases List.mem_cons.mp hm with hm | hm
        · exact absurd hm (by simp)
        · exact g4 r hm

/-- C24: when a chain of derived buffers deeper than the ceiling `max_depth` is submitted,
the buffers at the depths below the ceiling are scanned, exactly one sentinel record with
the feature `MAX_DEPTH_REACHED_ERROR_FEATURE` is stored, for the buffer at the ceiling, and
nothing deeper is scanned or submitted. -/
theorem C24_recursion_ceiling (ss : scanner_set) (recorder : Str) (chain : List sbuf_t)
    (h : ss.max_depth < chain.length) :
    (process_chain ss recorder 0 chain).length = ss.max_depth + 1 ∧
    ((process_chain ss recorder 0 chain).filter scan_event.is_refused).length = 1 ∧
    (∀ (sbuf : sbuf_t) (d : Nat),
      scan_event.scanned sbuf d ∈ process_chain ss recorder 0 chain → d < ss.max_depth) ∧
    (∀ r : Record, scan_event.refused r ∈ process_chain ss recorder 0 chain →
      r.feature = MAX_DEPTH_REACHED_ERROR_FEATURE ∧
      r.context = MAX_DEPTH_REACHED_ERROR_CONTEXT) :=
  process_chain_spec ss recorder chain 0 (Nat.zero_le _) (by omega)

theorem C24_recursion_ceiling_witness :
    (process_chain {} "alerts".toList 0 (List.replicate 10 pageBuf)).length = 7 + 1 ∧
    ((process_chain {} "alerts".toList 0 (List.replicate 10 pageBuf)).filter
      scan_event.is_refused).length = 1 :=
  have h := C24_recursion_ceiling {} "alerts".toList (List.replicate 10 pageBuf) (by decide)
  ⟨h.1, h.2.1⟩

/-! ## Claims on `unquote_string` -/

theorem unquote_loop_short (s : Str) (h : s.length < 4) : unquote_loop s = s := by
  match s, h with
  | [], _ => rfl
  | [_], _ => rfl
  | [_, _], _ => rfl
  | [_, _, _], _ => rfl
  | _ :: _ :: _ :: _ :: _, h => simp at h; omega

theorem unquote_string_eq_loop (s : Str) : unquote_string s = unquote_loop s := by
  unfold unquote_string
  split
  · rename_i h; exact (unquote_loop_short s h).symm
  · rfl

theorem unquote_loop_literal (c : Char) (rest : Str) (hc : c ≠ '\\') :
    unquote_loop (c :: rest) = c :: unquote_loop rest := by
  match rest with
  | [] => rfl
  | [_] => rfl
  | [_, _] => rfl
  | d1 :: d2 :: d3 :: rest' => simp [unquote_loop, hc]

set_option maxRecDepth 100000 in
theorem hexval_of_small : ∀ n, n < 128 → isxdigit (Char.ofNat n) = true →
    hexval (Char.ofNat n) = hex_digit_value (Char.ofNat n) ∧ hexval (Char.ofNat n) < 16 := by
  decide

theorem hexval_of_isxdigit (h : Char) (hx : isxdigit h = true) :
    hexval h = hex_digit_value h ∧ hexval h < 16 := by
  have hlt : h.toNat < 128 := by
    unfold isxdigit at hx
    simp only [Bool.or_eq_true, Bool.and_eq_true, decide_eq_true_eq] at hx
    rcases hx with (⟨_, h2⟩ | ⟨_, h2⟩) | ⟨_, h2⟩
    · have := Char.le_def.mp h2
      exact Nat.lt_of_le_of_lt this (by decide)
    · have := Char.le_def.mp h2
      exact Nat.lt_of_le_of_lt this (by decide)
    · have := Char.le_def.mp h2
      exact Nat.lt_of_le_of_lt this (by decide)
  have := hexval_of_small h.toNat hlt
  rw [Char.ofNat_toNat] at this
  exact this hx

set_option maxRecDepth 100000 in
theorem or_eq_add_of_lt : ∀ a, a < 16 → ∀ b, b < 16 → (a * 16 ||| b) = a * 16 + b := by
  decide

theorem unquote_loop_piece (p : quoted_piece) (rest : Str) (hv : p.valid = true) :
    unquote_loop (p.text ++ rest) = p.byte :: unquote_loop rest := by
  cases p with
  | literal c =>
    have hc : c ≠ '\\' := by simpa [quoted_piece.valid] using hv
    exact unquote_loop_literal c rest hc
  | octal d1 d2 d3 =>
    simp only [quoted_piece.valid, Bool.and_eq_true, decide_eq_true_eq] at hv
    obtain ⟨⟨⟨⟨⟨a1, b1⟩, a2⟩, b2⟩, a3⟩, b3⟩ := hv
    have n1 := Char.le_def.mp a1
    have m1 := Char.le_def.mp b1
    have n2 := Char.le_def.mp a2
    have m2 := Char.le_def.mp b2
    have n3 := Char.le_def.mp a3
    have m3 := Char.le_def.mp b3
    have k1 : d1.toNat ≤ 51 := m1
    have k2 : d2.toNat ≤ 55 := m2
    have k3 : d3.toNat ≤ 55 := m3
    have i1 : isodigit d1 = true := by
      simp only [isodigit, Bool.and_eq_true, decide_eq_true_eq]
      exact ⟨a1, le_trans b1 (by decide)⟩
    have i2 : isodigit d2 = true := by
      simp only [isodigit, Bool.and_eq_true, decide_eq_true_eq]
      exact ⟨a2, b2⟩
    have i3 : isodigit d3 = true := by
      simp only [isodigit, Bool.and_eq_true, decide_eq_true_eq]
      exact ⟨a3, b3⟩
    have hval : ((d1.toNat - 48) * 64 + (d2.toNat - 48) * 8 + (d3.toNat - 48)) % 256
        = (d1.toNat - 48) * 64 + (d2.toNat - 48) * 8 + (d3.toNat - 48) :=
      Nat.mod_eq_of_lt (by omega)
    show unquote_loop ('\\' :: d1 :: d2 :: d3 :: rest) = _
    simp only [unquote_loop, i1, i2, i3, and_self, if_true, hval, quoted_piece.byte]
  | hex h1 h2 =>
    simp only [quoted_piece.valid, Bool.and_eq_true] at hv
    obtain ⟨x1, x2⟩ := hv
    obtain ⟨e1, l1⟩ := hexval_of_isxdigit h1 x1
    obtain ⟨e2, l2⟩ := hexval_of_isxdigit h2 x2
    have hnot : isodigit 'x' = false := by decide
    have hval : ((hexval h1 * 16) ||| hexval h2) % 256
        = hex_digit_value h1 * 16 + hex_digit_value h2 := by
      rw [or_eq_add_of_lt _ l1 _ l2, Nat.mod_eq_of_lt (by omega), e1, e2]
    show unquote_loop ('\\' :: 'x' :: h1 :: h2 :: rest) = _
    simp only [unquote_loop, hnot, x1, x2, Bool.false_eq_true, false_and, and_false,
      and_self, if_false, if_true, hval, quoted_piece.byte]

theorem unquote_loop_text (ps : List quoted_piece) (h : ∀ p ∈ ps, p.valid = true) :
    unquote_loop (quoted_text ps) = ps.map quoted_piece.byte := by
  induction ps with
  | nil => rfl
  | cons p ps ih =>
    rw [quoted_text, unquote_loop_piece p _ (h p (List.mem_cons_self _ _)),
      ih (fun q hq => h q (List.mem_cons_of_mem _ hq))]
    rfl

set_option maxRecDepth 100000 in
theorem octal_escape_small : ∀ n, n < 256 →
    (quoted_piece.octal (Char.ofNat (48 + (Char.ofNat n).toNat / 64))
        (Char.ofNat (48 + (Char.ofNat n).toNat / 8 % 8))
        (Char.ofNat (48 + (Char.ofNat n).toNat % 8))).valid = true ∧
    (quoted_piece.octal (Char.ofNat (48 + (Char.ofNat n).toNat / 64))
        (Char.ofNat (48 + (Char.ofNat n).toNat / 8 % 8))
        (Char.ofNat (48 + (Char.ofNat n).toNat % 8))).byte = Char.ofNat n := by
  decide

set_option maxRecDepth 100000 in
theorem hex_escape_small : ∀ n, n < 256 →
    (quoted_piece.hex (Nat.digitChar ((Char.ofNat n).toNat / 16))
        (Nat.digitChar ((Char.ofNat n).toNat % 16))).valid = true ∧
    (quoted_piece.hex (Nat.digitChar ((Char.ofNat n).toNat / 16))
        (Nat.digitChar ((Char.ofNat n).toNat % 16))).byte = Char.ofNat n := by
  decide

theorem unquote_loop_octal_quote (bs : Str) (h : ∀ b ∈ bs, b.toNat < 256) :
    unquote_loop (octal_quote bs) = bs := by
  induction bs with
  | nil => rfl
  | cons b bs ih =>
    have hb := octal_escape_small b.toNat (h b (List.mem_cons_self _ _))
    rw [Char.ofNat_toNat] at hb
    have := unquote_loop_piece _ (octal_quote bs) hb.1
    rw [hb.2] at this
    rw [octal_quote]
    show unquote_loop ((quoted_piece.octal _ _ _).text ++ octal_quote bs) = _
    rw [this, ih (fun q hq => h q (List.mem_cons_of_mem _ hq))]

theorem unquote_loop_hex_quote (bs : Str) (h : ∀ b ∈ bs, b.toNat < 256) :
    unquote_loop (hex_quote bs) = bs := by
  induction bs with
  | nil => rfl
  | cons b bs ih =>
    have hb := hex_escape_small b.toNat (h b (List.mem_cons_self _ _))
    rw [Char.ofNat_toNat] at hb
    have := unquote_loop_piece _ (hex_quote bs) hb.1
    rw [hb.2] at this
    rw [hex_quote]
    show unquote_loop ((quoted_piece.hex _ _).text ++ hex_quote bs) = _
    rw [this, ih (fun q hq => h q (List.mem_cons_of_mem _ hq))]

/-- C30: for every string made of literal non-backslash bytes, octal escapes of a value of
at most 0377 and hex escapes in either case, `unquote_string` returns the bytes that the
pieces denote, in order; and every byte string written with each byte as its octal escape,
or each byte as its hex escape, is given back by `unquote_string`. -/
theorem C30_unquote_string (ps : List quoted_piece) (bs : Str)
    (hps : ∀ p ∈ ps, p.valid = true) (hbs : ∀ b ∈ bs, b.toNat < 256) :
    unquote_string (quoted_text ps) = ps.map quoted_piece.byte ∧
    unquote_string (octal_quote bs) = bs ∧
    unquote_string (hex_quote bs) = bs := by
  rw [unquote_string_eq_loop, unquote_string_eq_loop, unquote_string_eq_loop]
  exact ⟨unquote_loop_text ps hps, unquote_loop_octal_quote bs hbs,
    unquote_loop_hex_quote bs hbs⟩

theorem C30_unquote_string_witness :
    unquote_string "a\\101\\x4A\\x4ab".toList = "aAJJb".toList ∧
    unquote_string "\\110\\151\\012".toList = "Hi\n".toList ∧
    unquote_string "\\x48\\x69\\x0a".toList = "Hi\n".toList :=
  C30_unquote_string
    [quoted_piece.literal 'a', quoted_piece.octal '1' '0' '1', quoted_piece.hex '4' 'A',
     quoted_piece.hex '4' 'a', quoted_piece.literal 'b']
    "Hi\n".toList (by decide) (by decide)

/-! ## Claims on `valid_dosname` -/

theorem ofNat_byte (c : Char) (h : c.toNat < 256) : Char.ofNat (c.toNat % 256) = c := by
  rw [Nat.mod_eq_of_lt h]
  exact Char.ofNat_toNat c

theorem dosname_replaced_eq (c : Char) (h : c.toNat < 256) :
    dosname_replaced c = dosname_invalid c := by
  unfold dosname_replaced dosname_invalid
  simp only [ofNat_byte c h]
  simp [Bool.or_assoc]

theorem valid_dosname_length (s : Str) : (valid_dosname s).length = s.length := by
  induction s with
  | nil => rfl
  | cons c rest ih => simp [valid_dosname, ih]

theorem valid_dosname_eq_map (s : Str) (hbytes : ∀ c ∈ s, c.toNat < 256) :
    valid_dosname s = s.map (fun c => if dosname_invalid c then '_' else c) := by
  induction s with
  | nil => rfl
  | cons c rest ih =>
    have hc : c.toNat < 256 := hbytes c (List.mem_cons_self _ _)
    have hr : ∀ d ∈ rest, d.toNat < 256 := fun d hd => hbytes d (List.mem_cons_of_mem _ hd)
    simp only [valid_dosname, List.map_cons, ih hr, dosname_replaced_eq c hc, ofNat_byte c hc]

/-- **C31** For a string of bytes, `valid_dosname` returns a string of the same length in
which every byte that is at most 32, at least 128 or one of the sixteen listed characters
is replaced by `_` and every other byte is unchanged; no byte of the result is one of the
invalid ones. -/
theorem C31_valid_dosname (s : Str) (hbytes : ∀ c ∈ s, c.toNat < 256) :
    (valid_dosname s).length = s.length ∧
    valid_dosname s = s.map (fun c => if dosname_invalid c then '_' else c) ∧
    ∀ c ∈ valid_dosname s, dosname_invalid c = false := by
  refine ⟨valid_dosname_length s, valid_dosname_eq_map s hbytes, ?_⟩
  rw [valid_dosname_eq_map s hbytes]
  intro c hc
  obtain ⟨d, _, hd⟩ := List.mem_map.mp hc
  by_cases h : dosname_invalid d = true
  · rw [if_pos h] at hd
    rw [← hd]
    decide
  · rw [if_neg h] at hd
    rw [← hd]
    exact Bool.eq_false_iff.mpr h

theorem C31_valid_dosname_witness :
    (valid_dosname "a b/c:d.txt".toList).length = "a b/c:d.txt".toList.length ∧
    valid_dosname "a b/c:d.txt".toList
      = "a b/c:d.txt".toList.map (fun c => if dosname_invalid c then '_' else c) ∧
    ∀ c ∈ valid_dosname "a b/c:d.txt".toList, dosname_invalid c = false :=
  C31_valid_dosname "a b/c:d.txt".toList (by decide)

/-! ## Claims on the order and the string form of `pos0_t` -/

theorem strLt_trans (a b c : Str) (h1 : strLt a b = true) (h2 : strLt b c = true) :
    strLt a c = true :=
  (strLt_iff_lex a c).mpr
    (IsTrans.trans a b c ((strLt_iff_lex a b).mp h1) ((strLt_iff_lex b c).mp h2))

theorem strLt_total (a b : Str) : strLt a b = true ∨ a = b ∨ strLt b a = true := by
  rcases (IsTrichotomous.trichotomous a b : List.Lex (· < ·) a b ∨ a = b ∨ List.Lex (· < ·) b a)
    with h | h | h
  · exact Or.inl ((strLt_iff_lex a b).mpr h)
  · exact Or.inr (Or.inl h)
  · exact Or.inr (Or.inr ((strLt_iff_lex b a).mpr h))

theorem strLt_asymm (a b : Str) (h : strLt a b = true) : strLt b a = false := by
  cases hba : strLt b a with
  | false => rfl
  | true =>
    have := strLt_trans a b a h hba
    rw [strLt_irrefl] at this
    exact absurd this Bool.false_ne_true

theorem lt_iff_strLt (p q : pos0_t) :
    pos0_t.lt p q = true ↔
      (strLt p.path q.path = true ∨ (p.path = q.path ∧ p.offset < q.offset)) := by
  unfold pos0_t.lt
  by_cases hpq : p.path = q.path
  · by_cases he : p.path.length = 0 ∧ q.path.length = 0
    · simp [he, hpq, strLt_irrefl]
    · simp [he, hpq, strLt_irrefl]
  · have he : ¬ (p.path.length = 0 ∧ q.path.length = 0) := by
      rintro ⟨h1, h2⟩
      exact hpq ((List.length_eq_zero.mp h1).trans (List.length_eq_zero.mp h2).symm)
    simp only [he, hpq, if_false, false_and, or_false]

theorem gt_eq_lt (p q : pos0_t) : pos0_t.gt p q = pos0_t.lt q p := by
  unfold pos0_t.gt pos0_t.lt
  by_cases hpq : p.path = q.path
  · have hqp : q.path = p.path := hpq.symm
    by_cases he : p.path.length = 0 ∧ q.path.length = 0
    · have he2 : q.path.length = 0 ∧ p.path.length = 0 := ⟨he.2, he.1⟩
      rw [if_pos he, if_pos he2]
    · have he2 : ¬ (q.path.length = 0 ∧ p.path.length = 0) := fun h => he ⟨h.2, h.1⟩
      rw [if_neg he, if_neg he2, if_pos hpq, if_pos hqp]
  · have hqp : ¬ q.path = p.path := fun h => hpq h.symm
    have he : ¬ (p.path.length = 0 ∧ q.path.length = 0) := by
      rintro ⟨h1, h2⟩
      exact hpq ((List.length_eq_zero.mp h1).trans (List.length_eq_zero.mp h2).symm)
    have he2 : ¬ (q.path.length = 0 ∧ p.path.length = 0) := fun h => he ⟨h.2, h.1⟩
    rw [if_neg he, if_neg he2, if_neg hpq, if_neg hqp]

theorem pos0_eq_iff (p q : pos0_t) :
    pos0_t.eq p q = true ↔ (p.path = q.path ∧ p.offset = q.offset) := by
  unfold pos0_t.eq
  simp

theorem pos0_lt_false_iff (p q : pos0_t) :
    pos0_t.lt p q = false ↔
      ¬ (strLt p.path q.path = true ∨ (p.path = q.path ∧ p.offset < q.offset)) := by
  rw [← lt_iff_strLt]
  simp

theorem pos0_eq_false_iff (p q : pos0_t) :
    pos0_t.eq p q = false ↔ ¬ (p.path = q.path ∧ p.offset = q.offset) := by
  rw [← pos0_eq_iff]
  simp

/-- **C32** The operator `<` on forensic paths is irreflexive and transitive, exactly one
of `p < q`, `p == q`, `q < p` holds, `p > q` is `q < p`, and `p != q` is the negation of
`p == q`. -/
theorem C32_lt_strict_total_order (p q r : pos0_t) :
    pos0_t.lt p p = false ∧
    (pos0_t.lt p q = true → pos0_t.lt q r = true → pos0_t.lt p r = true) ∧
    ((pos0_t.lt p q = true ∧ pos0_t.eq p q = false ∧ pos0_t.lt q p = false) ∨
     (pos0_t.lt p q = false ∧ pos0_t.eq p q = true ∧ pos0_t.lt q p = false) ∨
     (pos0_t.lt p q = false ∧ pos0_t.eq p q = false ∧ pos0_t.lt q p = true)) ∧
    pos0_t.gt p q = pos0_t.lt q p ∧
    pos0_t.ne p q = !pos0_t.eq p q := by
  refine ⟨?_, ?_, ?_, gt_eq_lt p q, rfl⟩
  · rw [pos0_lt_false_iff]
    rintro (h | ⟨_, h⟩)
    · rw [strLt_irrefl] at h
      exact absurd h Bool.false_ne_true
    · exact absurd h (Nat.lt_irrefl _)
  · intro h1 h2
    rw [lt_iff_strLt] at h1 h2 ⊢
    rcases h1 with h1 | ⟨e1, o1⟩
    · rcases h2 with h2 | ⟨e2, _⟩
      · exact Or.inl (strLt_trans _ _ _ h1 h2)
      · rw [← e2]
        exact Or.inl h1
    · rcases h2 with h2 | ⟨e2, o2⟩
      · rw [e1]
        exact Or.inl h2
      · exact Or.inr ⟨e1.trans e2, Nat.lt_trans o1 o2⟩
  · simp only [lt_iff_strLt, pos0_lt_false_iff, pos0_eq_iff, pos0_eq_false_iff]
    rcases strLt_total p.path q.path with h | h | h
    · have h2 := strLt_asymm _ _ h
      have hne : p.path ≠ q.path := by
        intro e
        rw [e, strLt_irrefl] at h
        exact absurd h Bool.false_ne_true
      have hne2 : q.path ≠ p.path := fun e => hne e.symm
      refine Or.inl ⟨Or.inl h, ?_, ?_⟩
      · exact fun e => hne e.1
      · rintro (h3 | ⟨e, _⟩)
        · rw [h2] at h3
          exact absurd h3 Bool.false_ne_true
        · exact hne2 e
    · have i1 : ¬ strLt p.path q.path = true := by
        rw [h, strLt_irrefl]
        exact Bool.false_ne_true
      have i2 : ¬ strLt q.path p.path = true := by
        rw [h, strLt_irrefl]
        exact Bool.false_ne_true
      rcases Nat.lt_trichotomy p.offset q.offset with o | o | o
      · refine Or.inl ⟨Or.inr ⟨h, o⟩, ?_, ?_⟩
        · exact fun e => absurd e.2 (Nat.ne_of_lt o)
        · rintro (h3 | ⟨_, o2⟩)
          · exact i2 h3
          · exact absurd o2 (Nat.lt_asymm o)
      · refine Or.inr (Or.inl ⟨?_, ⟨h, o⟩, ?_⟩)
        · rintro (h3 | ⟨_, o2⟩)
          · exact i1 h3
          · exact absurd o2 (by omega)
        · rintro (h3 | ⟨_, o2⟩)
          · exact i2 h3
          · exact absurd o2 (by omega)
      · refine Or.inr (Or.inr ⟨?_, ?_, Or.inr ⟨h.symm, o⟩⟩)
        · rintro (h3 | ⟨_, o2⟩)
          · exact i1 h3
          · exact absurd o2 (Nat.lt_asymm o)
        · exact fun e => absurd e.2 (by omega)
    · have h2 := strLt_asymm _ _ h
      have hne : q.path ≠ p.path := by
        intro e
        rw [e, strLt_irrefl] at h
        exact absurd h Bool.false_ne_true
      have hne2 : p.path ≠ q.path := fun e => hne e.symm
      refine Or.inr (Or.inr ⟨?_, ?_, Or.inl h⟩)
      · rintro (h3 | ⟨e, _⟩)
        · rw [h2] at h3
          exact absurd h3 Bool.false_ne_true
        · exact hne2 e
      · exact fun e => hne2 e.1

theorem C32_lt_strict_total_order_witness :
    pos0_t.lt (pos0_t.make "100-GZIP".toList 5) (pos0_t.make "100-GZIP".toList 5) = false ∧
    (pos0_t.lt (pos0_t.make "100-GZIP".toList 5) (pos0_t.make "100-GZIP".toList 9) = true →
      pos0_t.lt (pos0_t.make "100-GZIP".toList 9) (pos0_t.make "100-ZIP".toList 0) = true →
      pos0_t.lt (pos0_t.make "100-GZIP".toList 5) (pos0_t.make "100-ZIP".toList 0) = true) ∧
    pos0_t.lt (pos0_t.make "100-GZIP".toList 5) (pos0_t.make "100-GZIP".toList 9) = true ∧
    pos0_t.lt (pos0_t.make "100-GZIP".toList 9) (pos0_t.make "100-ZIP".toList 0) = true ∧
    pos0_t.gt (pos0_t.make "100-GZIP".toList 5) (pos0_t.make "100-GZIP".toList 9)
      = pos0_t.lt (pos0_t.make "100-GZIP".toList 9) (pos0_t.make "100-GZIP".toList 5) :=
  have h := C32_lt_strict_total_order (pos0_t.make "100-GZIP".toList 5)
    (pos0_t.make "100-GZIP".toList 9) (pos0_t.make "100-ZIP".toList 0)
  ⟨h.1, h.2.1, by decide, by decide, h.2.2.2.1⟩

theorem append_dash_inj (a : Str) : ∀ (b d1 d2 : Str), a ++ '-' :: d1 = b ++ '-' :: d2 →
    '-' ∉ d1 → '-' ∉ d2 → a = b ∧ d1 = d2 := by
  induction a with
  | nil =>
    intro b d1 d2 h n1 n2
    cases b with
    | nil =>
      simp only [List.nil_append, List.cons.injEq, true_and] at h
      exact ⟨rfl, h⟩
    | cons y b2 =>
      simp only [List.nil_append, List.cons_append, List.cons.injEq] at h
      exact absurd (h.2 ▸ (List.mem_append_right b2 (List.mem_cons_self _ _))) n1
  | cons x a2 ih =>
    intro b d1 d2 h n1 n2
    cases b with
    | nil =>
      simp only [List.nil_append, List.cons_append, List.cons.injEq] at h
      exact absurd (h.2 ▸ (List.mem_append_right a2 (List.mem_cons_self _ _))) n2
    | cons y b2 =>
      simp only [List.cons_append, List.cons.injEq] at h
      obtain ⟨e1, e2⟩ := ih b2 d1 d2 h.2 n1 n2
      exact ⟨by rw [h.1, e1], e2⟩

theorem u64_to_string_inj (m n : Nat) (h : u64_to_string m = u64_to_string n) : m = n := by
  have := congrArg digitsValue h
  unfold u64_to_string at this
  rwa [digitsValue_toDigits, digitsValue_toDigits] at this

theorem dash_not_mem_u64 (n : Nat) : '-' ∉ u64_to_string n :=
  fun h => u64_to_string_no_dash n '-' h rfl

theorem str_inj (p q : pos0_t) (h : p.str = q.str) : p.path = q.path ∧ p.offset = q.offset := by
  unfold pos0_t.str at h
  by_cases hp : p.path.length > 0
  · by_cases hq : q.path.length > 0
    · simp only [hp, hq, if_true, List.append_assoc, List.singleton_append] at h
      obtain ⟨e1, e2⟩ := append_dash_inj _ _ _ _ h (dash_not_mem_u64 _) (dash_not_mem_u64 _)
      exact ⟨e1, u64_to_string_inj _ _ e2⟩
    · simp only [hp, hq, if_true, if_false, List.append_assoc, List.singleton_append,
        List.nil_append] at h
      exact absurd (h ▸ (List.mem_append_right p.path (List.mem_cons_self _ _)))
        (dash_not_mem_u64 _)
  · by_cases hq : q.path.length > 0
    · simp only [hp, hq, if_true, if_false, List.append_assoc, List.singleton_append,
        List.nil_append] at h
      exact absurd (h.symm ▸ (List.mem_append_right q.path (List.mem_cons_self _ _)))
        (dash_not_mem_u64 _)
    · simp only [hp, hq, if_false, List.nil_append] at h
      have e1 : p.path = [] := List.length_eq_zero.mp (by omega)
      have e2 : q.path = [] := List.length_eq_zero.mp (by omega)
      exact ⟨e1.trans e2.symm, u64_to_string_inj _ _ h⟩

/-- **C33** The member `str()` is injective on forensic paths: two of them have the same
string form exactly when they have the same decoder path and the same offset, which is
when `==` holds. -/
theorem C33_str_injective (p q : pos0_t) :
    (p.str = q.str ↔ (p.path = q.path ∧ p.offset = q.offset)) ∧
    (p.str = q.str ↔ pos0_t.eq p q = true) := by
  have key : p.str = q.str ↔ (p.path = q.path ∧ p.offset = q.offset) := by
    constructor
    · exact str_inj p q
    · rintro ⟨e1, e2⟩
      unfold pos0_t.str
      rw [e1, e2]
  exact ⟨key, key.trans (pos0_eq_iff p q).symm⟩

/-! ## Claims on the assertion and the context of `write_buf` -/

theorem write_buf_args_no_wrap_asserts (self : feature_recorder) (sbuf : sbuf_t)
    (pos len : Nat) (h1 : pos < sbuf.pagesize) (h2 : pos < sbuf.bufsize)
    (h3 : pos + len + self.context_window < U64) :
    write_buf_args self sbuf pos len ≠ write_buf_step.assert_failed := by
  rw [write_buf_args_in_page self sbuf pos len h1 h2 h3]
  exact fun h => write_buf_step.noConfusion h

theorem write_buf_feature_in_context (self : feature_recorder) (sbuf : sbuf_t)
    (pos len : Nat) (h1 : pos < sbuf.pagesize) (h2 : pos < sbuf.bufsize)
    (h3 : pos + len + self.context_window < U64) (hc : self.flags.no_context = false) :
    ∃ p feature context, write_buf_args self sbuf pos len = write_buf_step.call p feature context ∧
      (context.drop (min pos self.context_window)).take feature.length = feature := by
  rw [write_buf_args_in_page self sbuf pos len h1 h2 h3]
  refine ⟨_, _, _, rfl, ?_⟩
  have hb : sbuf.bufsize = sbuf.buf.length := rfl
  rw [hc]
  simp only [Bool.false_eq_true, if_false, List.drop_take, List.drop_drop, List.take_take,
    List.length_take, List.length_drop]
  have e1 : min pos self.context_window + (pos - self.context_window) = pos := by omega
  have e1b : pos - self.context_window + min pos self.context_window = pos := by omega
  simp only [e1, e1b]
  congr 1
  omega

/-- **C34** The assertion `p0 <= p1` of `write_buf` can fail: with the default context
window of 16 bytes, a buffer of 64 bytes, `pos = 40` and `len = 2^64 - 40`, the position
passes both checks, `pos + len` wraps to 0, the length is not clamped, `p0` is 24 and `p1`
is 16, and the call aborts in the assertion. -/
theorem C34_assertion_fails :
    emailRecorder.flags.no_context = false ∧ emailRecorder.context_window = 16 ∧
    ¬ (40 ≥ wideBuf.pagesize ∧ 40 < wideBuf.bufsize) ∧ ¬ (40 ≥ wideBuf.bufsize) ∧
    (18446744073709551576 : Nat) < U64 ∧
    (40 + 18446744073709551576) % U64 = 0 ∧
    (40 + 18446744073709551576 + emailRecorder.context_window) % U64 = 16 ∧
    ¬ (40 - emailRecorder.context_window ≤ 16) ∧
    write_buf_args emailRecorder wideBuf 40 18446744073709551576
      = write_buf_step.assert_failed ∧
    write_buf plainExternal defaultSet 0 emailRecorder wideBuf 40 18446744073709551576
      = some (Outcome.abort 0) := by
  decide

/-- **C35** The feature that `write_buf` extracts need not lie in the context: with the
default context window of 16 bytes, a buffer of 64 bytes, `pos = 40` and `len = 2^64 - 30`,
the feature is the 24 bytes from 40 to the end and the context is the two bytes 24 and 25,
which is shorter than the feature and does not hold it at index `min(pos, context_window)`. -/
theorem C35_feature_outside_context :
    emailRecorder.flags.no_context = false ∧
    (18446744073709551586 : Nat) < U64 ∧
    write_buf_args emailRecorder wideBuf 40 18446744073709551586
      = write_buf_step.call (pos0_t.make [] 40) "EFGHIJKLMNOPQRSTUVWXYZ+/".toList "op".toList ∧
    ("op".toList.drop (min 40 emailRecorder.context_window)).take
        "EFGHIJKLMNOPQRSTUVWXYZ+/".toList.length ≠ "EFGHIJKLMNOPQRSTUVWXYZ+/".toList ∧
    "op".toList.length < "EFGHIJKLMNOPQRSTUVWXYZ+/".toList.length := by
  decide

/-! ## Claims on `split` and `ends_with` -/

theorem split_loop_nil (delim : Char) (fuel : Nat) : split_loop delim fuel [] = [] := by
  cases fuel with
  | zero => rfl
  | succ f => rfl

theorem split_loop_free (delim : Char) (fuel : Nat) :
    ∀ ss : Str, ∀ piece ∈ split_loop delim fuel ss, delim ∉ piece := by
  induction fuel with
  | zero =>
    intro ss piece h
    simp [split_loop] at h
  | succ f ih =>
    intro ss piece h
    unfold split_loop getline at h
    by_cases hs : ss = []
    · simp [hs] at h
    · simp only [hs, if_false, List.mem_cons] at h
      rcases h with h | h
      · intro hm
        rw [h] at hm
        have := List.mem_takeWhile_imp hm
        simp at this
      · exact ih _ piece h

theorem takeWhile_dropWhile_cases (delim : Char) (ss : Str) :
    (ss.takeWhile (fun c => c ≠ delim) = ss ∧ ss.dropWhile (fun c => c ≠ delim) = []) ∨
    ∃ rest, ss.dropWhile (fun c => c ≠ delim) = delim :: rest ∧
      ss = ss.takeWhile (fun c => c ≠ delim) ++ delim :: rest := by
  induction ss with
  | nil => exact Or.inl ⟨rfl, rfl⟩
  | cons x xs ih =>
    by_cases hx : x = delim
    · refine Or.inr ⟨xs, ?_, ?_⟩
      · simp [List.dropWhile, hx]
      · simp [List.takeWhile, hx]
    · rcases ih with ⟨h1, h2⟩ | ⟨rest, h1, h2⟩
      · refine Or.inl ⟨?_, ?_⟩
        · simp only [List.takeWhile, hx, ne_eq, not_false_eq_true, decide_True, h1]
        · simp only [List.dropWhile, hx, ne_eq, not_false_eq_true, decide_True, h2]
      · refine Or.inr ⟨rest, ?_, ?_⟩
        · simp only [List.dropWhile, hx, ne_eq, not_false_eq_true, decide_True, h1]
        · simp only [List.takeWhile, hx, ne_eq, not_false_eq_true, decide_True,
            List.cons_append]
          rw [← h2]

theorem split_loop_join (delim : Char) (fuel : Nat) :
    ∀ ss : Str, ss.length < fuel → (∀ t, ss ≠ t ++ [delim]) →
      join_with delim (split_loop delim fuel ss) = ss := by
  induction fuel with
  | zero =>
    intro ss h
    exact absurd h (Nat.not_lt_zero _)
  | succ f ih =>
    intro ss hlen hend
    by_cases hs : ss = []
    · rw [hs, split_loop_nil]
      rfl
    · unfold split_loop getline
      simp only [hs, if_false]
      rcases takeWhile_dropWhile_cases delim ss with ⟨h1, h2⟩ | ⟨rest, h1, h2⟩
      · rw [h1, h2, List.drop_nil, split_loop_nil]
        rfl
      · rw [h1, List.drop_one, List.tail_cons]
        have hrest : rest ≠ [] := by
          intro e
          rw [e] at h2
          exact hend _ h2
        have hrend : ∀ t, rest ≠ t ++ [delim] := by
          intro t e
          apply hend (ss.takeWhile (fun c => c ≠ delim) ++ delim :: t)
          rw [List.append_assoc, List.cons_append, ← e]
          exact h2
        have hrlen : rest.length < f := by
          have := congrArg List.length h2
          simp only [List.length_append, List.length_cons] at this
          omega
        have hih := ih rest hrlen hrend
        cases hsp : split_loop delim f rest with
        | nil =>
          rw [hsp] at hih
          exact absurd hih.symm hrest
        | cons y r =>
          rw [hsp] at hih
          show ss.takeWhile (fun c => c ≠ delim) ++ delim :: join_with delim (y :: r) = ss
          rw [hih]
          exact h2.symm

/-- **C36** For a string `s` that does not end with `delim`, the elements of
`split(s, delim)` joined with `delim` give back `s`; no element holds `delim`; and the
empty string splits into no elements. -/
theorem C36_split_join (s : Str) (delim : Char) (hend : s.getLast? ≠ some delim) :
    join_with delim (split s delim) = s ∧
    (∀ piece ∈ split s delim, delim ∉ piece) ∧
    split [] delim = [] := by
  refine ⟨?_, split_loop_free delim _ s, rfl⟩
  apply split_loop_join delim _ s (Nat.lt_succ_self _)
  intro t e
  apply hend
  rw [e]
  exact List.getLast?_concat _ 

theorem C36_split_join_witness :
    "a,b,,c".toList.getLast? ≠ some ',' ∧
    split "a,b,,c".toList ',' = ["a".toList, "b".toList, [], "c".toList] ∧
    join_with ',' (split "a,b,,c".toList ',') = "a,b,,c".toList :=
  ⟨by decide, by decide, (C36_split_join "a,b,,c".toList ',' (by decide)).1⟩

theorem substr_suffix (buf w : Str) (h : w.length ≤ buf.length) :
    substr buf (buf.length - w.length) w.length = w ↔ w <:+ buf := by
  unfold substr
  have hl : (buf.drop (buf.length - w.length)).length = w.length := by
    rw [List.length_drop]
    omega
  rw [List.take_of_length_le (Nat.le_of_eq hl)]
  constructor
  · intro e
    exact ⟨buf.take (buf.length - w.length), by
      nth_rewrite 2 [← e]
      exact List.take_append_drop _ _⟩
  · rintro ⟨t, e⟩
    have ht : buf.length - w.length = t.length := by
      rw [← e, List.length_append]
      omega
    rw [ht, ← e]
    exact List.drop_left t w

/-- **C37** The function `ends_with(buf, with)` is true exactly when `with` is a suffix
of `buf` and `buf` is longer than `with`. -/
theorem C37_ends_with_iff (buf w : Str) :
    ends_with buf w = true ↔ (w <:+ buf ∧ w.length < buf.length) := by
  unfold ends_with
  simp only [Bool.and_eq_true, decide_eq_true_eq, gt_iff_lt]
  constructor
  · rintro ⟨h1, h2⟩
    exact ⟨(substr_suffix buf w (Nat.le_of_lt h1)).mp h2, h1⟩
  · rintro ⟨h1, h2⟩
    exact ⟨h2, (substr_suffix buf w (Nat.le_of_lt h2)).mpr h1⟩

/-- **C37** A string is a suffix of itself, and `ends_with` of a string and itself is
false; so is `ends_with` of two empty strings. -/
theorem C37_ends_with_itself :
    "abc".toList <:+ "abc".toList ∧
    substr "abc".toList ("abc".toList.length - "abc".toList.length) "abc".toList.length
      = "abc".toList ∧
    ends_with "abc".toList "abc".toList = false ∧
    ends_with [] [] = false :=
  ⟨List.suffix_refl _, by decide, by decide, by decide⟩

end BE13
